import Mathlib

/-
  Verification development for the USB-Blaster JTAG driver
  (src/jtag/drivers/usb_blaster/usb_blaster.c) and the MIPS32 EJTAG
  PrAcc engine (mips32_pracc.c, mips32.h).

  The C sources are shallowly embedded: the probe session state is a
  Lean structure, every driver primitive is a pure state transformer,
  machine bytes are Nat values reduced mod 256, and the transport is
  represented by the trace of byte chunks handed to it.
-/

set_option maxRecDepth 100000

namespace OpenOCD

/-- Size of the USB endpoint max packet size, 64 bytes (BUF_LEN in the source). -/
def BUF_LEN : Nat := 64

/-- Bit masks of the bit-bang mode byte, from the source defines. -/
def TCK : Nat := 1
def TMS : Nat := 2
def NCE : Nat := 4
def NCS : Nat := 8
def TDI : Nat := 16
def LED : Nat := 32
def READ : Nat := 64
def SHMODE : Nat := 128

/-- Scan direction, mirroring enum scan_type of the JTAG layer
    (SCAN_IN, SCAN_OUT, SCAN_IO). -/
inductive ScanType
  | scanIn
  | scanOut
  | scanInOut
deriving DecidableEq, Repr

/-- The IEEE 1149.1 TAP states, mirroring tap_state_t. -/
inductive TapState
  | TAP_RESET
  | TAP_IDLE
  | TAP_DRSELECT
  | TAP_DRCAPTURE
  | TAP_DRSHIFT
  | TAP_DREXIT1
  | TAP_DRPAUSE
  | TAP_DREXIT2
  | TAP_DRUPDATE
  | TAP_IRSELECT
  | TAP_IRCAPTURE
  | TAP_IRSHIFT
  | TAP_IREXIT1
  | TAP_IRPAUSE
  | TAP_IREXIT2
  | TAP_IRUPDATE
deriving DecidableEq, Repr

/-- The probe session (struct ublast_info) together with the observable
    transport trace.  buf is the 64-byte write accumulator (bufidx is
    buf.length); sent is the list of byte chunks successfully written to
    the transport; failedWrites records chunks whose transport write
    failed (the source drops them, see ublast_flush_buffer); writeOk
    models whether the transport accepts writes; aborted models the
    exit(-1) of ublast_queue_bytes on overflow; tapState is the TAP
    state recorded by the host (tap_get_state / tap_set_state). -/
structure UState where
  tms : Bool
  tdi : Bool
  pin6 : Bool
  pin8 : Bool
  buf : List Nat
  sent : List (List Nat)
  failedWrites : List (List Nat)
  writeOk : Bool
  tapState : TapState
  aborted : Bool
deriving DecidableEq, Repr

/-- The fresh session: all pins low, empty buffer, transport healthy. -/
def ustate0 : UState :=
  { tms := false, tdi := false, pin6 := false, pin8 := false,
    buf := [], sent := [], failedWrites := [], writeOk := true,
    tapState := .TAP_RESET, aborted := false }

/-- nb_buf_remaining: free space of the 64-byte write buffer. -/
def nb_buf_remaining (s : UState) : Nat := BUF_LEN - s.buf.length

/-- ublast_flush_buffer: hand the pending bytes to the transport and reset
    the fill index.  The source loops on partial writes; a healthy
    transport accepts the whole chunk in one write.  On a write error the
    source DISCARDS the error (the function returns void) and still
    resets the fill index; the dropped chunk is recorded in failedWrites. -/
def ublast_flush_buffer (s : UState) : UState :=
  if s.buf = [] then s
  else if s.writeOk then { s with sent := s.sent ++ [s.buf], buf := [] }
  else { s with failedWrites := s.failedWrites ++ [s.buf], buf := [] }

/-- ublast_queue_byte: append one bit-bang byte, flushing when the buffer
    is full before or after the append. -/
def ublast_queue_byte (b : Nat) (s : UState) : UState :=
  let s := if nb_buf_remaining s < 1 then ublast_flush_buffer s else s
  let s := { s with buf := s.buf ++ [b % 256] }
  if nb_buf_remaining s = 0 then ublast_flush_buffer s else s

/-- ublast_queue_bytes: append a block of bytes; more than the remaining
    space is a programmer error (exit(-1) in the source, the aborted flag
    here); flush exactly when the buffer is filled. -/
def ublast_queue_bytes (bytes : List Nat) (s : UState) : UState :=
  if s.buf.length + bytes.length > BUF_LEN then { s with aborted := true }
  else
    let s := { s with buf := s.buf ++ bytes }
    if nb_buf_remaining s = 0 then ublast_flush_buffer s else s

/-- ublast_build_out: compose the bit-bang output byte from the session
    pins; READ is set exactly for the reading scan directions. -/
def ublast_build_out (type : ScanType) (s : UState) : Nat :=
  (if s.tms then TMS else 0) |||
  (if s.pin6 then NCE else 0) |||
  (if s.pin8 then NCS else 0) |||
  (if s.tdi then TDI else 0) |||
  LED |||
  (if type = .scanIn ∨ type = .scanInOut then READ else 0)

/-- ublast_clock_tms: one TMS transition, two bit-bang bytes
    (TCK low then TCK high). -/
def ublast_clock_tms (tms : Bool) (s : UState) : UState :=
  let s := { s with tms := tms, tdi := false }
  let out := ublast_build_out .scanOut s
  let s := ublast_queue_byte out s
  ublast_queue_byte (out ||| TCK) s

/-- ublast_idle_clock: one extra TCK-low byte so every operation leaves
    the clock low. -/
def ublast_idle_clock (s : UState) : UState :=
  ublast_queue_byte (ublast_build_out .scanOut s) s

/-- ublast_clock_tdi: output one TDI bit in bit-bang mode,
    TCK low byte then TCK high byte (the high byte carries READ when the
    scan direction reads TDO). -/
def ublast_clock_tdi (tdi : Bool) (type : ScanType) (s : UState) : UState :=
  let s := { s with tdi := tdi }
  let s := ublast_queue_byte (ublast_build_out .scanOut s) s
  ublast_queue_byte (ublast_build_out type s ||| TCK) s

/-- ublast_clock_tdi_flip_tms: like ublast_clock_tdi but toggling TMS, used
    for the very last TDI bit to move SHIFT to EXIT1; a third byte drops
    TCK again. -/
def ublast_clock_tdi_flip_tms (tdi : Bool) (type : ScanType) (s : UState) : UState :=
  let s := { s with tdi := tdi, tms := !s.tms }
  let s := ublast_queue_byte (ublast_build_out .scanOut s) s
  let s := ublast_queue_byte (ublast_build_out type s ||| TCK) s
  ublast_queue_byte (ublast_build_out .scanOut s) s

/-- ublast_read_byteshifted_tdos: flush the write buffer then read the TDO
    payload back.  Only the write-side effect (the flush) is modelled; the
    TDO bytes travel from the probe to the caller and never enter the
    write trace. -/
def ublast_read_byteshifted_tdos (s : UState) : UState :=
  ublast_flush_buffer s

/-- ublast_read_bitbang_tdos: flush the write buffer then read one byte per
    clocked bit.  Only the flush is modelled, as for the byteshifted read. -/
def ublast_read_bitbang_tdos (s : UState) : UState :=
  ublast_flush_buffer s

/-- The nb8 / nb1 split of ublast_queue_tdi: nb_bits / 8 byte-shift bytes
    and nb_bits mod 8 bit-bang bits, with the borrow (nb8 - 1, 8) whenever
    nb1 = 0 and nb8 > 0.  The source applies the borrow unconditionally,
    with no reference to the tap_shift argument. -/
def tdi_split (nb_bits : Nat) : Nat × Nat :=
  let nb8 := nb_bits / 8
  let nb1 := nb_bits % 8
  if nb8 > 0 ∧ nb1 = 0 then (nb8 - 1, 8) else (nb8, nb1)

/-- The split as claim C2 words it: the borrow is applied exactly when
    exit is requested (tap_shift) and nb1 = 0 and nb8 > 0.  Stated from
    the claim for comparison with the tdi_split of the source. -/
def tdi_splitClaim (nb_bits : Nat) (tap_shift : Bool) : Nat × Nat :=
  let nb8 := nb_bits / 8
  let nb1 := nb_bits % 8
  if tap_shift ∧ nb1 = 0 ∧ nb8 > 0 then (nb8 - 1, 8) else (nb8, nb1)

/-- The byte-shift loop of ublast_queue_tdi.  Each iteration emits one
    header byte (SHMODE, optionally READ, and the length trans in the low
    six bits) followed by trans payload bytes, where
    trans = min (nbfree - 1) (nb8 - i); a reading scan then flushes and
    reads the TDO bytes back.  The C loop advances i by trans, which can
    be zero when the buffer held 63 bytes; the burst fuel (2 * nb8 + 2 at
    the call site) is enough for every run, see byteShiftLoop_completes. -/
def byteShiftLoop (bits : Option (List Nat)) (readTdos : Bool) (nb8 : Nat) :
    Nat → Nat → UState → UState
  | 0, _, s => s
  | fuel + 1, i, s =>
    if i < nb8 then
      let nbfree := nb_buf_remaining s
      let trans := min (nbfree - 1) (nb8 - i)
      let header := if readTdos then SHMODE ||| READ ||| trans else SHMODE ||| trans
      let s := ublast_queue_byte header s
      let payload := match bits with
        | some bs => (List.range trans).map (fun k => bs.getD (i + k) 0 % 256)
        | none => List.replicate trans 0
      let s := ublast_queue_bytes payload s
      let s := if readTdos then ublast_read_byteshifted_tdos s else s
      byteShiftLoop bits readTdos nb8 fuel (i + trans) s
    else s

/-- The trailing bit-bang loop of ublast_queue_tdi: the remaining nb1 bits
    go out one TCK pulse each; with tap_shift and a non-null input buffer
    the last bit flips TMS.  rem is the structural fuel, nb1 at the call
    site, exactly the number of remaining iterations. -/
def bitbangLoop (bits : Option (List Nat)) (nb8 nb1 : Nat) (scan : ScanType)
    (tap_shift : Bool) : Nat → Nat → UState → UState
  | 0, _, s => s
  | rem + 1, i, s =>
    if i < nb1 then
      let tdi : Bool := match bits with
        | some bs => (bs.getD (nb8 + i / 8) 0) &&& (1 <<< i) != 0
        | none => false
      let s :=
        if tap_shift ∧ bits ≠ none ∧ i = nb1 - 1 then
          ublast_clock_tdi_flip_tms tdi scan s
        else
          ublast_clock_tdi tdi scan s
      bitbangLoop bits nb8 nb1 scan tap_shift rem (i + 1) s
    else s

/-- ublast_queue_tdi: shift nb_bits TDI bits, as many as possible in
    byte-shift bursts and the rest (always at least one bit, by the
    borrow) in bit-bang mode.  The TDO bytes copied back into the caller
    buffer are not part of the write-side trace and are not modelled. -/
def ublast_queue_tdi (bits : Option (List Nat)) (nb_bits : Nat)
    (scan : ScanType) (tap_shift : Bool) (s : UState) : UState :=
  let p := tdi_split nb_bits
  let nb8 := p.1
  let nb1 := p.2
  let readTdos : Bool := decide (scan = .scanIn ∨ scan = .scanInOut)
  let s := byteShiftLoop bits readTdos nb8 (2 * nb8 + 2) 0 s
  let s := bitbangLoop bits nb8 nb1 scan tap_shift nb1 0 s
  let s := if nb1 ≠ 0 ∧ readTdos then ublast_read_bitbang_tdos s else s
  ublast_idle_clock s

/-- The loop body of ublast_tms_seq, one ublast_clock_tms per bit, bits
    taken LSB-first from the byte array. -/
def tmsSeqLoop (bits : List Nat) (nb_bits : Nat) : Nat → Nat → UState → UState
  | 0, _, s => s
  | rem + 1, i, s =>
    if i < nb_bits then
      let s := ublast_clock_tms ((bits.getD (i / 8) 0 >>> (i % 8)) &&& 1 != 0) s
      tmsSeqLoop bits nb_bits rem (i + 1) s
    else s

/-- ublast_tms_seq: write a series of TMS transitions and leave TCK low. -/
def ublast_tms_seq (bits : List Nat) (nb_bits : Nat) (s : UState) : UState :=
  let s := tmsSeqLoop bits nb_bits nb_bits 0 s
  ublast_idle_clock s

/-- The external TAP transition tables consumed by the driver:
    tap_get_tms_path / tap_get_tms_path_len give the TMS word and its
    length for a state-to-state move, tap_state_transition gives the
    neighbor reached by clocking TMS = 0 or 1.  They are host-provided
    pure functions, outside this repository. -/
structure TapOracle where
  pathBits : TapState → TapState → Nat
  pathLen : TapState → TapState → Nat
  nextState : TapState → Bool → TapState

/-- ublast_state_move: no-op when already in the target state, otherwise
    play the oracle TMS path and record the target state. -/
def ublast_state_move (o : TapOracle) (st : TapState) (s : UState) : UState :=
  if s.tapState = st then s
  else
    let s := ublast_tms_seq [o.pathBits s.tapState st] (o.pathLen s.tapState st) s
    { s with tapState := st }

/-- The loop body of ublast_path_move: for each requested state, clock
    TMS = 0 or TMS = 1 according to which neighbor of the current recorded
    state matches, then record the state. -/
def pathMoveLoop (o : TapOracle) : List TapState → UState → UState
  | [], s => s
  | st :: rest, s =>
    let s := if o.nextState s.tapState false = st then ublast_clock_tms false s else s
    let s := if o.nextState s.tapState true = st then ublast_clock_tms true s else s
    pathMoveLoop o rest { s with tapState := st }

/-- ublast_path_move: walk the requested path and leave TCK low. -/
def ublast_path_move (o : TapOracle) (path : List TapState) (s : UState) : UState :=
  let s := pathMoveLoop o path s
  ublast_idle_clock s

/-- ublast_runtest: move to IDLE, clock the requested zero bits, move to
    the end state. -/
def ublast_runtest (o : TapOracle) (cycles : Nat) (st : TapState) (s : UState) : UState :=
  let s := ublast_state_move o .TAP_IDLE s
  let s := ublast_queue_tdi none cycles .scanOut true s
  ublast_state_move o st s

/-- ublast_stableclocks: clock the requested zero bits in place. -/
def ublast_stableclocks (cycles : Nat) (s : UState) : UState :=
  ublast_queue_tdi none cycles .scanOut true s

/-- ublast_reset: TRST/SRST wiring is unimplemented in the source; it only
    records RESET when trst is asserted. -/
def ublast_reset (trst : Bool) (_srst : Bool) (s : UState) : UState :=
  if trst then { s with tapState := .TAP_RESET } else s

/-- A scan command (struct scan_command), with the scan type and bit count
    the JTAG helpers jtag_scan_type / jtag_build_buffer derive from it. -/
structure ScanCommand where
  ir_scan : Bool
  stype : ScanType
  buf : Option (List Nat)
  scan_bits : Nat
  end_state : TapState
deriving DecidableEq, Repr

/-- ERROR_OK of the OpenOCD error plumbing. -/
def ERROR_OK : Int := 0

/-- ublast_scan: move to IRSHIFT or DRSHIFT, shift the payload (with exit
    unless the caller asked to stay in DRSHIFT), step EXIT1 to PAUSE, and
    finally move to the requested end state.  The result value comes from
    the host-side jtag_read_buffer, which unpacks TDO into the command
    buffers and is modelled as succeeding. -/
def ublast_scan (o : TapOracle) (cmd : ScanCommand) (s : UState) : Int × UState :=
  let s := ublast_state_move o (if cmd.ir_scan then .TAP_IRSHIFT else .TAP_DRSHIFT) s
  let s :=
    if cmd.end_state = .TAP_DRSHIFT then
      ublast_queue_tdi cmd.buf cmd.scan_bits cmd.stype false s
    else
      ublast_queue_tdi cmd.buf cmd.scan_bits cmd.stype true s
  let s :=
    if cmd.end_state ≠ .TAP_DRSHIFT then
      let s := ublast_clock_tms false s
      { s with tapState := if cmd.ir_scan then .TAP_IRPAUSE else .TAP_DRPAUSE }
    else s
  let s :=
    if cmd.end_state ≠ .TAP_DRSHIFT then ublast_state_move o cmd.end_state s else s
  (ERROR_OK, s)

/-- One queued JTAG command (struct jtag_command), the cases of the
    dispatch switch in ublast_execute_queue. -/
inductive JtagCommand
  | reset (trst srst : Bool)
  | runtest (num_cycles : Nat) (end_state : TapState)
  | stableclocks (num_cycles : Nat)
  | statemove (end_state : TapState)
  | pathmove (path : List TapState)
  | tmsCmd (bits : List Nat) (num_bits : Nat)
  | sleep (us : Nat)
  | scanCmd (cmd : ScanCommand)

/-- The command dispatch loop of ublast_execute_queue: commands run in
    order while the accumulated result stays ERROR_OK. -/
def ublastExecLoop (o : TapOracle) : List JtagCommand → UState → Int × UState
  | [], s => (ERROR_OK, s)
  | c :: rest, s =>
    match c with
    | .reset trst srst => ublastExecLoop o rest (ublast_reset trst srst s)
    | .runtest n st => ublastExecLoop o rest (ublast_runtest o n st s)
    | .stableclocks n => ublastExecLoop o rest (ublast_stableclocks n s)
    | .statemove st => ublastExecLoop o rest (ublast_state_move o st s)
    | .pathmove p => ublastExecLoop o rest (ublast_path_move o p s)
    | .tmsCmd bits n => ublastExecLoop o rest (ublast_tms_seq bits n s)
    | .sleep _ => ublastExecLoop o rest s
    | .scanCmd cmd =>
      let r := ublast_scan o cmd s
      if r.1 = ERROR_OK then ublastExecLoop o rest r.2 else r

/-- ublast_execute_queue: run the queue, then flush the write buffer.
    The flush returns no status (ublast_flush_buffer is void), so its
    transport write errors cannot reach the returned value. -/
def ublast_execute_queue (o : TapOracle) (cmds : List JtagCommand) (s : UState) :
    Int × UState :=
  let r := ublastExecLoop o cmds s
  (r.1, ublast_flush_buffer r.2)

/-- Claim C2, amended.  In ublast_queue_tdi the split is
    nb8 = n / 8 and nb1 = n mod 8, and the borrow (nb8 - 1, nb1 = 8) is
    applied exactly when nb1 = 0 and nb8 > 0, independently of whether
    exit (tap_shift) is requested; in all cases nb8 * 8 + nb1 = n. -/
theorem C2_amended (n : Nat) :
    (tdi_split n).1 * 8 + (tdi_split n).2 = n ∧
    tdi_split n = (if n % 8 = 0 ∧ 0 < n / 8 then (n / 8 - 1, 8) else (n / 8, n % 8)) := by
  constructor
  · unfold tdi_split
    by_cases h : n / 8 > 0 ∧ n % 8 = 0
    · simp only [h, if_pos, and_true]
      obtain ⟨h1, h2⟩ := h
      have := Nat.div_add_mod n 8
      omega
    · simp only [h, if_neg, not_false_iff]
      have := Nat.div_add_mod n 8
      omega
  · unfold tdi_split
    by_cases h : n / 8 > 0 ∧ n % 8 = 0
    · simp [h.1, h.2]
    · rcases Decidable.not_and_iff_or_not.mp h with h1 | h1 <;> simp_all

/-- Claim C2, counterexample.  The source applies the borrow for
    nb_bits = 16 even when no exit is requested (tap_shift = 0), emitting
    one byte-shift byte and eight bit-bang bits, while the claim requires
    the borrow only when exit is requested (two byte-shift bytes, zero
    bit-bang bits). -/
theorem C2_counterexample :
    tdi_split 16 = (1, 8) ∧ tdi_splitClaim 16 false = (2, 0) ∧
    tdi_split 16 ≠ tdi_splitClaim 16 false := by decide

@[simp] lemma flush_tapState (s : UState) :
    (ublast_flush_buffer s).tapState = s.tapState := by
  unfold ublast_flush_buffer
  split
  · rfl
  · split <;> rfl

@[simp] lemma queue_byte_tapState (b : Nat) (s : UState) :
    (ublast_queue_byte b s).tapState = s.tapState := by
  simp only [ublast_queue_byte]
  split <;> split <;> simp

@[simp] lemma queue_bytes_tapState (bytes : List Nat) (s : UState) :
    (ublast_queue_bytes bytes s).tapState = s.tapState := by
  simp only [ublast_queue_bytes]
  split
  · rfl
  · split <;> simp

@[simp] lemma clock_tms_tapState (t : Bool) (s : UState) :
    (ublast_clock_tms t s).tapState = s.tapState := by
  simp [ublast_clock_tms]

@[simp] lemma idle_clock_tapState (s : UState) :
    (ublast_idle_clock s).tapState = s.tapState := by
  simp [ublast_idle_clock]

@[simp] lemma clock_tdi_tapState (t : Bool) (ty : ScanType) (s : UState) :
    (ublast_clock_tdi t ty s).tapState = s.tapState := by
  simp [ublast_clock_tdi]

@[simp] lemma clock_tdi_flip_tms_tapState (t : Bool) (ty : ScanType) (s : UState) :
    (ublast_clock_tdi_flip_tms t ty s).tapState = s.tapState := by
  simp [ublast_clock_tdi_flip_tms]

@[simp] lemma read_byteshifted_tdos_tapState (s : UState) :
    (ublast_read_byteshifted_tdos s).tapState = s.tapState := by
  simp [ublast_read_byteshifted_tdos]

@[simp] lemma read_bitbang_tdos_tapState (s : UState) :
    (ublast_read_bitbang_tdos s).tapState = s.tapState := by
  simp [ublast_read_bitbang_tdos]

@[simp] lemma byteShiftLoop_tapState (bits : Option (List Nat)) (readTdos : Bool)
    (nb8 : Nat) : ∀ (fuel i : Nat) (s : UState),
    (byteShiftLoop bits readTdos nb8 fuel i s).tapState = s.tapState := by
  intro fuel
  induction fuel with
  | zero => intro i s; rfl
  | succ n ih =>
    intro i s
    simp only [byteShiftLoop]
    split
    · rw [ih]
      split <;> simp
    · rfl

@[simp] lemma bitbangLoop_tapState (bits : Option (List Nat)) (nb8 nb1 : Nat)
    (scan : ScanType) (tap_shift : Bool) : ∀ (rem i : Nat) (s : UState),
    (bitbangLoop bits nb8 nb1 scan tap_shift rem i s).tapState = s.tapState := by
  intro rem
  induction rem with
  | zero => intro i s; rfl
  | succ n ih =>
    intro i s
    simp only [bitbangLoop]
    split
    · rw [ih]
      split <;> simp
    · rfl

@[simp] lemma queue_tdi_tapState (bits : Option (List Nat)) (nb_bits : Nat)
    (scan : ScanType) (tap_shift : Bool) (s : UState) :
    (ublast_queue_tdi bits nb_bits scan tap_shift s).tapState = s.tapState := by
  simp only [ublast_queue_tdi]
  rw [idle_clock_tapState]
  split <;> simp

@[simp] lemma tmsSeqLoop_tapState (bits : List Nat) (nb_bits : Nat) :
    ∀ (rem i : Nat) (s : UState),
    (tmsSeqLoop bits nb_bits rem i s).tapState = s.tapState := by
  intro rem
  induction rem with
  | zero => intro i s; rfl
  | succ n ih =>
    intro i s
    simp only [tmsSeqLoop]
    split
    · rw [ih]; simp
    · rfl

@[simp] lemma tms_seq_tapState (bits : List Nat) (nb_bits : Nat) (s : UState) :
    (ublast_tms_seq bits nb_bits s).tapState = s.tapState := by
  simp [ublast_tms_seq]

@[simp] lemma state_move_tapState (o : TapOracle) (st : TapState) (s : UState) :
    (ublast_state_move o st s).tapState = st := by
  unfold ublast_state_move
  split
  · next h => exact h
  · rfl

/-- Claim C3, amended.  After ublast_scan the recorded TAP state equals
    the commanded end state whenever that end state is not DRSHIFT; when
    the end state is DRSHIFT (the stay-in-shift sentinel) the recorded
    state is the shift state actually entered: IRSHIFT for an IR scan and
    DRSHIFT for a DR scan. -/
theorem C3_amended (o : TapOracle) (cmd : ScanCommand) (s : UState) :
    ((ublast_scan o cmd s).2).tapState =
      (if cmd.end_state = .TAP_DRSHIFT then
        (if cmd.ir_scan then TapState.TAP_IRSHIFT else .TAP_DRSHIFT)
      else cmd.end_state) := by
  unfold ublast_scan
  by_cases h : cmd.end_state = .TAP_DRSHIFT
  · by_cases hir : cmd.ir_scan <;> simp [h, hir]
  · simp [h]

/-- A concrete transition oracle (its values never influence the recorded
    TAP state of a scan). -/
def oracle0 : TapOracle :=
  { pathBits := fun _ _ => 0x1f, pathLen := fun _ _ => 5, nextState := fun st _ => st }

/-- The IR-scan command of the C3 counterexample: stay-in-shift requested
    via end_state = DRSHIFT on an IR scan. -/
def c3cmd : ScanCommand :=
  { ir_scan := true, stype := .scanOut, buf := some [0xB], scan_bits := 4,
    end_state := .TAP_DRSHIFT }

/-- Claim C3, counterexample.  An IR scan whose end state is DRSHIFT
    leaves the recorded TAP state at IRSHIFT, not DRSHIFT as the claim
    states for both scan kinds. -/
theorem C3_counterexample :
    ((ublast_scan oracle0 c3cmd ustate0).2).tapState = .TAP_IRSHIFT ∧
    TapState.TAP_IRSHIFT ≠ TapState.TAP_DRSHIFT := by
  constructor
  · unfold ublast_scan
    simp [c3cmd]
  · decide

/-- The command loop itself always produces ERROR_OK: only ublast_scan can
    set the result, and its value is the host-side read-buffer status. -/
lemma ublastExecLoop_ok (o : TapOracle) :
    ∀ (cmds : List JtagCommand) (s : UState), (ublastExecLoop o cmds s).1 = ERROR_OK := by
  intro cmds
  induction cmds with
  | nil => intro s; rfl
  | cons c rest ih => intro s; cases c <;> simp [ublastExecLoop, ih, ublast_scan]

/-- Claim C10, amended.  ublast_flush_buffer returns no status, so a
    transport write error during a flush is discarded: ublast_execute_queue
    returns ERROR_OK for every command queue, every oracle and every
    session state, in particular when buffered writes failed. -/
theorem C10_amended (o : TapOracle) (cmds : List JtagCommand) (s : UState) :
    (ublast_execute_queue o cmds s).1 = ERROR_OK := by
  unfold ublast_execute_queue
  exact ublastExecLoop_ok o cmds s

/-- A run of ublast_execute_queue against a transport whose writes fail:
    one stableclocks command from a fresh session. -/
def c10run : Int × UState :=
  ublast_execute_queue oracle0 [JtagCommand.stableclocks 8]
    { ustate0 with writeOk := false }

/-- Claim C10, counterexample.  With a failing transport the flush of the
    17 queued bytes is lost (recorded in failedWrites) and yet
    ublast_execute_queue reports ERROR_OK: the write error is not
    propagated to the caller. -/
theorem C10_counterexample :
    c10run.1 = ERROR_OK ∧ c10run.2.failedWrites ≠ [] := by
  constructor
  · rfl
  · decide

/-- Residual payload count of a left-to-right scan of a byte chunk:
    k payload bytes are still owed; a byte with bit 7 set opens a
    byte-shift burst owing its low six bits of payload; any other byte
    outside a payload is a bit-bang byte.  The result is the payload
    still owed when the chunk ends. -/
def chunkScanK : Nat → List Nat → Nat
  | k, [] => k
  | 0, b :: rest => if 128 ≤ b then chunkScanK (b % 64) rest else chunkScanK 0 rest
  | k + 1, _ :: rest => chunkScanK k rest

/-- A chunk is well formed when every byte-shift header inside it is
    followed by exactly its low six bits of payload bytes within the same
    chunk: the scan ends owing nothing. -/
def checkChunk (l : List Nat) : Bool := chunkScanK 0 l == 0

/-- The checker of claim C1 as stated: additionally every byte-shift
    header must carry a length of at least 1 in its low six bits. -/
def chunkScanStrict : Nat → List Nat → Bool
  | 0, [] => true
  | _ + 1, [] => false
  | 0, b :: rest =>
    if 128 ≤ b then decide (1 ≤ b % 64) && chunkScanStrict (b % 64) rest
    else chunkScanStrict 0 rest
  | k + 1, _ :: rest => chunkScanStrict k rest

/-- Chunk well-formedness in the strict sense of claim C1. -/
def checkChunkStrict (l : List Nat) : Bool := chunkScanStrict 0 l

lemma chunkScanK_append :
    ∀ (xs : List Nat) (k : Nat) (ys : List Nat),
    chunkScanK k (xs ++ ys) = chunkScanK (chunkScanK k xs) ys := by
  intro xs
  induction xs with
  | nil => intro k ys; simp [chunkScanK]
  | cons b rest ih =>
    intro k ys
    match k with
    | 0 =>
      simp only [List.cons_append, chunkScanK]
      split <;> simp [List.append_eq, ih]
    | k + 1 =>
      simp only [List.cons_append, chunkScanK]
      simp [List.append_eq, ih]

lemma chunkScanK_length : ∀ l : List Nat, chunkScanK l.length l = 0 := by
  intro l
  induction l with
  | nil => rfl
  | cons b rest ih => simpa [chunkScanK] using ih

lemma checkChunk_append {xs : List Nat} (ys : List Nat) (h : checkChunk xs = true) :
    checkChunk (xs ++ ys) = checkChunk ys := by
  unfold checkChunk at *
  rw [chunkScanK_append]
  simp only [beq_iff_eq] at h
  rw [h]

lemma checkChunk_single_lt {b : Nat} (hb : b < 128) : checkChunk [b] = true := by
  simp [checkChunk, chunkScanK, Nat.not_le.mpr hb]

lemma checkChunk_burst {hdr : Nat} {payload : List Nat} (hh : 128 ≤ hdr)
    (hl : hdr % 64 = payload.length) : checkChunk (hdr :: payload) = true := by
  simp only [checkChunk, chunkScanK, hh, if_pos, hl]
  simpa using chunkScanK_length payload

/-- Header byte facts: for a burst length below 64, the queued header byte
    (after the mod 256 of the byte queue) has bit 7 set and carries the
    length in its low six bits, in both the reading and the writing form. -/
lemma header_facts : ∀ t : Nat, t < 64 →
    128 ≤ (SHMODE ||| t) % 256 ∧ (SHMODE ||| t) % 256 % 64 = t ∧
    128 ≤ (SHMODE ||| READ ||| t) % 256 ∧ (SHMODE ||| READ ||| t) % 256 % 64 = t := by
  decide

/-- The bit-bang output byte never has bit 7 set, with or without the TCK
    bit or-ed in. -/
lemma build_out_lt (ty : ScanType) (s : UState) :
    ublast_build_out ty s < 128 ∧ ublast_build_out ty s ||| TCK < 128 := by
  unfold ublast_build_out
  rcases s with ⟨tms, tdi, pin6, pin8, buf, sent, fw, wo, ts, ab⟩
  dsimp only
  cases tms <;> cases tdi <;> cases pin6 <;> cases pin8 <;> cases ty <;> decide

/-- The write-side chunk invariant maintained by the driver: every chunk
    already sent (or dropped by a failing transport) is well formed, the
    pending buffer holds only complete bursts, the fill index is at most
    63, and no queueing overflow was hit. -/
def chunksOK (s : UState) : Prop :=
  (∀ c ∈ s.sent, checkChunk c = true) ∧
  (∀ c ∈ s.failedWrites, checkChunk c = true) ∧
  checkChunk s.buf = true ∧
  s.buf.length ≤ 63 ∧
  s.aborted = false

@[simp] lemma flush_buf (s : UState) : (ublast_flush_buffer s).buf = [] := by
  unfold ublast_flush_buffer
  split
  · next h => exact h
  · split <;> rfl

lemma flush_chunksOK_of {s : UState}
    (hsent : ∀ c ∈ s.sent, checkChunk c = true)
    (hfail : ∀ c ∈ s.failedWrites, checkChunk c = true)
    (hbuf : checkChunk s.buf = true) (hab : s.aborted = false) :
    chunksOK (ublast_flush_buffer s) := by
  unfold ublast_flush_buffer chunksOK
  split
  · next h => exact ⟨hsent, hfail, by simp [h, checkChunk, chunkScanK], by simp [h], hab⟩
  · split
    · refine ⟨?_, hfail, by simp [checkChunk, chunkScanK], by simp, hab⟩
      intro c hc
      rcases List.mem_append.mp hc with hc | hc
      · exact hsent c hc
      · rw [List.mem_singleton.mp hc]; exact hbuf
    · refine ⟨hsent, ?_, by simp [checkChunk, chunkScanK], by simp, hab⟩
      intro c hc
      rcases List.mem_append.mp hc with hc | hc
      · exact hfail c hc
      · rw [List.mem_singleton.mp hc]; exact hbuf

lemma flush_chunksOK {s : UState} (h : chunksOK s) :
    chunksOK (ublast_flush_buffer s) :=
  flush_chunksOK_of h.1 h.2.1 h.2.2.1 h.2.2.2.2

lemma queue_byte_eq_no_flush {s : UState} {b : Nat} (hl : s.buf.length ≤ 62) :
    ublast_queue_byte b s = { s with buf := s.buf ++ [b % 256] } := by
  have h1 : ¬ (nb_buf_remaining s < 1) := by
    dsimp only [nb_buf_remaining, BUF_LEN]
    omega
  have h2 : ¬ (nb_buf_remaining { s with buf := s.buf ++ [b % 256] } = 0) := by
    dsimp only [nb_buf_remaining, BUF_LEN]
    simp only [List.length_append, List.length_cons, List.length_nil]
    omega
  unfold ublast_queue_byte
  rw [if_neg h1, if_neg h2]

lemma queue_byte_eq_flush63 {s : UState} {b : Nat} (hl : s.buf.length = 63) :
    ublast_queue_byte b s = ublast_flush_buffer { s with buf := s.buf ++ [b % 256] } := by
  have h1 : ¬ (nb_buf_remaining s < 1) := by
    dsimp only [nb_buf_remaining, BUF_LEN]
    omega
  have h2 : nb_buf_remaining { s with buf := s.buf ++ [b % 256] } = 0 := by
    dsimp only [nb_buf_remaining, BUF_LEN]
    simp only [List.length_append, List.length_cons, List.length_nil]
    omega
  unfold ublast_queue_byte
  rw [if_neg h1, if_pos h2]

lemma queue_bytes_ok_of {s : UState} {bytes : List Nat}
    (hsent : ∀ c ∈ s.sent, checkChunk c = true)
    (hfail : ∀ c ∈ s.failedWrites, checkChunk c = true)
    (hab : s.aborted = false)
    (hck : checkChunk (s.buf ++ bytes) = true)
    (hlen : s.buf.length + bytes.length ≤ 64) :
    chunksOK (ublast_queue_bytes bytes s) := by
  unfold ublast_queue_bytes
  rw [if_neg (by dsimp only [BUF_LEN]; omega)]
  dsimp only
  split
  · exact flush_chunksOK_of hsent hfail hck hab
  · next hnf =>
    refine ⟨hsent, hfail, hck, ?_, hab⟩
    dsimp only [nb_buf_remaining, BUF_LEN] at hnf
    simp only [List.length_append] at hnf ⊢
    omega

lemma queue_byte_chunksOK {s : UState} {b : Nat} (h : chunksOK s) (hb : b < 128) :
    chunksOK (ublast_queue_byte b s) := by
  obtain ⟨hsent, hfail, hbuf, hlen, hab⟩ := h
  have hb2 : b % 256 = b := Nat.mod_eq_of_lt (by omega)
  have hck : checkChunk (s.buf ++ [b % 256]) = true := by
    rw [checkChunk_append _ hbuf, hb2]
    exact checkChunk_single_lt hb
  rcases Nat.lt_or_ge s.buf.length 63 with hl | hl
  · rw [queue_byte_eq_no_flush (by omega)]
    refine ⟨hsent, hfail, hck, ?_, hab⟩
    simp only [List.length_append, List.length_cons, List.length_nil]
    omega
  · have hl63 : s.buf.length = 63 := by omega
    rw [queue_byte_eq_flush63 hl63]
    exact flush_chunksOK_of hsent hfail hck hab

lemma clock_tms_chunksOK {t : Bool} {s : UState} (h : chunksOK s) :
    chunksOK (ublast_clock_tms t s) := by
  unfold ublast_clock_tms
  exact queue_byte_chunksOK (queue_byte_chunksOK h (build_out_lt _ _).1)
    (build_out_lt _ _).2

lemma idle_clock_chunksOK {s : UState} (h : chunksOK s) :
    chunksOK (ublast_idle_clock s) := by
  unfold ublast_idle_clock
  exact queue_byte_chunksOK h (build_out_lt _ _).1

lemma clock_tdi_chunksOK {t : Bool} {ty : ScanType} {s : UState} (h : chunksOK s) :
    chunksOK (ublast_clock_tdi t ty s) := by
  unfold ublast_clock_tdi
  exact queue_byte_chunksOK (queue_byte_chunksOK h (build_out_lt _ _).1)
    (build_out_lt _ _).2

lemma clock_tdi_flip_tms_chunksOK {t : Bool} {ty : ScanType} {s : UState}
    (h : chunksOK s) : chunksOK (ublast_clock_tdi_flip_tms t ty s) := by
  unfold ublast_clock_tdi_flip_tms
  exact queue_byte_chunksOK
    (queue_byte_chunksOK (queue_byte_chunksOK h (build_out_lt _ _).1)
      (build_out_lt _ _).2)
    (build_out_lt _ _).1

lemma byteShiftLoop_chunksOK (bits : Option (List Nat)) (readTdos : Bool)
    (nb8 : Nat) : ∀ (fuel i : Nat) (s : UState), chunksOK s →
    chunksOK (byteShiftLoop bits readTdos nb8 fuel i s) := by
  intro fuel
  induction fuel with
  | zero => intro i s h; exact h
  | succ n ih =>
    intro i s h
    simp only [byteShiftLoop]
    split
    · next hi =>
      apply ih
      obtain ⟨hsent, hfail, hbuf, hlen, hab⟩ := h
      set trans := min (nb_buf_remaining s - 1) (nb8 - i) with htrans
      have htlt : trans < 64 := by
        simp only [htrans, nb_buf_remaining, BUF_LEN]
        omega
      set header := if readTdos then SHMODE ||| READ ||| trans else SHMODE ||| trans
        with hheader
      have hhd : 128 ≤ header % 256 ∧ header % 256 % 64 = trans := by
        rcases header_facts trans htlt with ⟨ha, hbm, hc, hd⟩
        cases readTdos <;> simp only [hheader, if_true, if_false, Bool.false_eq_true,
          ite_false, ite_true] <;> exact ⟨by assumption, by assumption⟩
      set payload := (match bits with
        | some bs => (List.range trans).map (fun k => bs.getD (i + k) 0 % 256)
        | none => List.replicate trans 0) with hpayload
      have hpl : payload.length = trans := by
        cases bits <;> simp [hpayload]
      have hstep : chunksOK (ublast_queue_bytes payload (ublast_queue_byte header s)) := by
        rcases Nat.lt_or_ge s.buf.length 63 with hl | hl
        · -- room for the header without a flush: the burst is contiguous
          rw [queue_byte_eq_no_flush (by omega)]
          have htr : trans ≤ 63 - s.buf.length := by
            simp only [htrans, nb_buf_remaining, BUF_LEN]
            omega
          have hck : checkChunk ((s.buf ++ [header % 256]) ++ payload) = true := by
            rw [List.append_assoc, checkChunk_append _ hbuf, List.singleton_append]
            exact checkChunk_burst hhd.1 (by rw [hhd.2, hpl])
          have hln : (s.buf ++ [header % 256]).length + payload.length ≤ 64 := by
            simp only [List.length_append, List.length_cons, List.length_nil, hpl]
            omega
          exact queue_bytes_ok_of hsent hfail hab hck hln
        · -- the buffer held 63 bytes: trans = 0, the header closes the chunk
          have hl63 : s.buf.length = 63 := by omega
          have htr0 : trans = 0 := by
            simp only [htrans, nb_buf_remaining, BUF_LEN, hl63]
            omega
          have hp0 : payload = [] := by
            rw [← List.length_eq_zero]
            rw [hpl, htr0]
          rw [queue_byte_eq_flush63 hl63, hp0]
          have hckh : checkChunk (s.buf ++ [header % 256]) = true := by
            rw [checkChunk_append _ hbuf]
            exact checkChunk_burst hhd.1 (by rw [hhd.2, htr0]; rfl)
          have hfl : chunksOK (ublast_flush_buffer { s with buf := s.buf ++ [header % 256] }) :=
            flush_chunksOK_of hsent hfail hckh hab
          obtain ⟨h1, h2, h3, h4, h5⟩ := hfl
          have hck2 : checkChunk
              ((ublast_flush_buffer { s with buf := s.buf ++ [header % 256] }).buf ++ ([] : List Nat)) = true := by
            rw [List.append_nil]
            exact h3
          have hln2 : (ublast_flush_buffer { s with buf := s.buf ++ [header % 256] }).buf.length
              + ([] : List Nat).length ≤ 64 := by
            simp only [List.length_nil]
            omega
          exact queue_bytes_ok_of h1 h2 h5 hck2 hln2
      split
      · unfold ublast_read_byteshifted_tdos
        exact flush_chunksOK hstep
      · exact hstep
    · exact h

lemma bitbangLoop_chunksOK (bits : Option (List Nat)) (nb8 nb1 : Nat)
    (scan : ScanType) (tap_shift : Bool) : ∀ (rem i : Nat) (s : UState), chunksOK s →
    chunksOK (bitbangLoop bits nb8 nb1 scan tap_shift rem i s) := by
  intro rem
  induction rem with
  | zero => intro i s h; exact h
  | succ n ih =>
    intro i s h
    simp only [bitbangLoop]
    split
    · apply ih
      split
      · exact clock_tdi_flip_tms_chunksOK h
      · exact clock_tdi_chunksOK h
    · exact h

lemma queue_byte_buf_le {s : UState} {b : Nat} (h : s.buf.length ≤ 63) :
    (ublast_queue_byte b s).buf.length ≤ 63 := by
  rcases Nat.lt_or_ge s.buf.length 63 with hl | hl
  · rw [queue_byte_eq_no_flush (by omega)]
    simp only [List.length_append, List.length_cons, List.length_nil]
    omega
  · rw [queue_byte_eq_flush63 (by omega)]
    simp [flush_buf]

lemma queue_bytes_buf_le {s : UState} {bytes : List Nat} (h : s.buf.length ≤ 63) :
    (ublast_queue_bytes bytes s).buf.length ≤ 63 := by
  unfold ublast_queue_bytes
  split
  · exact h
  · dsimp only
    split
    · simp [flush_buf]
    · next hnf =>
      dsimp only [nb_buf_remaining, BUF_LEN] at hnf
      simp only [List.length_append] at hnf ⊢
      omega

lemma byteShiftLoop_fuel_stable (bits : Option (List Nat)) (readTdos : Bool)
    (nb8 : Nat) : ∀ (fuel i : Nat) (s : UState), s.buf.length ≤ 63 →
    2 * (nb8 - i) + (if s.buf.length = 63 then 1 else 0) < fuel →
    byteShiftLoop bits readTdos nb8 (fuel + 1) i s
      = byteShiftLoop bits readTdos nb8 fuel i s := by
  intro fuel
  induction fuel with
  | zero =>
    intro i s hlen hb
    exfalso
    revert hb
    split <;> omega
  | succ n ih =>
    intro i s hlen hb
    by_cases hi : i < nb8
    · simp only [byteShiftLoop, if_pos hi]
      set trans := min (nb_buf_remaining s - 1) (nb8 - i) with htrans
      set header := if readTdos then SHMODE ||| READ ||| trans else SHMODE ||| trans
        with hheader
      set payload := (match bits with
        | some bs => (List.range trans).map (fun k => bs.getD (i + k) 0 % 256)
        | none => List.replicate trans 0) with hpayload
      set S := (if readTdos then
          ublast_read_byteshifted_tdos (ublast_queue_bytes payload (ublast_queue_byte header s))
        else ublast_queue_bytes payload (ublast_queue_byte header s)) with hS
      have hSlen : S.buf.length ≤ 63 := by
        rw [hS]
        split
        · unfold ublast_read_byteshifted_tdos
          simp [flush_buf]
        · exact queue_bytes_buf_le (queue_byte_buf_le hlen)
      rcases Nat.eq_zero_or_pos trans with htr0 | htr1
      · have hl63 : s.buf.length = 63 := by
          simp only [htrans, nb_buf_remaining, BUF_LEN] at htr0
          omega
        have hp0 : payload = [] := by
          rw [← List.length_eq_zero]
          rw [hpayload]
          cases bits <;> simp [htr0]
        have hS0 : S.buf.length = 0 := by
          rw [hS, hp0, queue_byte_eq_flush63 hl63]
          have hq : ublast_queue_bytes []
              (ublast_flush_buffer { s with buf := s.buf ++ [header % 256] }) =
              { ublast_flush_buffer { s with buf := s.buf ++ [header % 256] } with
                buf := (ublast_flush_buffer { s with buf := s.buf ++ [header % 256] }).buf ++ [] } := by
            unfold ublast_queue_bytes
            rw [if_neg (by simp [flush_buf, BUF_LEN])]
            rw [if_neg (by simp [nb_buf_remaining, flush_buf, BUF_LEN])]
          split
          · unfold ublast_read_byteshifted_tdos
            simp [flush_buf]
          · rw [hq]
            simp [flush_buf]
        have hindS0 : (if S.buf.length = 63 then 1 else 0) = 0 := by
          rw [hS0]
          simp
        have hind1 : (if s.buf.length = 63 then 1 else 0) = 1 := by
          rw [hl63]
          simp
        apply ih (i + trans) S hSlen
        omega
      · apply ih (i + trans) S hSlen
        have htb : trans ≤ nb8 - i := by
          rw [htrans]
          exact min_le_right _ _
        have hind : (if s.buf.length = 63 then 1 else 0) ≤ 1 := by split <;> omega
        have hindS : (if S.buf.length = 63 then 1 else 0) ≤ 1 := by split <;> omega
        omega
    · simp only [byteShiftLoop, if_neg hi]

/-- The fuel 2 * nb8 + 2 used by ublast_queue_tdi is sufficient: giving
    the byte-shift loop any extra fuel does not change the result, so the
    fueled recursion computes the full C loop. -/
lemma byteShiftLoop_completes (bits : Option (List Nat)) (readTdos : Bool)
    (nb8 : Nat) (s : UState) (h : s.buf.length ≤ 63) :
    ∀ extra : Nat,
    byteShiftLoop bits readTdos nb8 (2 * nb8 + 2 + extra) 0 s
      = byteShiftLoop bits readTdos nb8 (2 * nb8 + 2) 0 s := by
  intro extra
  induction extra with
  | zero => rfl
  | succ n ih =>
    have hst := byteShiftLoop_fuel_stable bits readTdos nb8 (2 * nb8 + 2 + n) 0 s h
      (by split <;> omega)
    calc byteShiftLoop bits readTdos nb8 (2 * nb8 + 2 + (n + 1)) 0 s
        = byteShiftLoop bits readTdos nb8 (2 * nb8 + 2 + n) 0 s := hst
      _ = byteShiftLoop bits readTdos nb8 (2 * nb8 + 2) 0 s := ih

/-- Claim C1, amended.  Every byte-shift burst emitted by ublast_queue_tdi
    queues exactly one header byte whose low six bits N equal the number
    of payload bytes following it within the same 64-byte packet, with
    0 ≤ N ≤ 63: starting from any session whose write trace and pending
    buffer are burst-well-formed, the trace and buffer stay
    burst-well-formed after any shift.  N = 0 (excluded by the claim as
    stated) occurs exactly when a burst starts with 63 pending bytes, see
    the counterexample. -/
theorem C1_amended (bits : Option (List Nat)) (nb_bits : Nat) (scan : ScanType)
    (tap_shift : Bool) (s : UState) (h : chunksOK s) :
    chunksOK (ublast_queue_tdi bits nb_bits scan tap_shift s) := by
  unfold ublast_queue_tdi
  apply idle_clock_chunksOK
  have h1 := byteShiftLoop_chunksOK bits
    (decide (scan = ScanType.scanIn ∨ scan = ScanType.scanInOut))
    (tdi_split nb_bits).1 (2 * (tdi_split nb_bits).1 + 2) 0 s h
  have h2 := bitbangLoop_chunksOK bits (tdi_split nb_bits).1 (tdi_split nb_bits).2
    scan tap_shift (tdi_split nb_bits).2 0 _ h1
  split
  · unfold ublast_read_bitbang_tdos
    exact flush_chunksOK h2
  · exact h2

/-- Witness for C1_amended: a fresh session satisfies the invariant and a
    9-bit read-write shift preserves it. -/
theorem C1_amended_witness :
    chunksOK ustate0 ∧
    chunksOK (ublast_queue_tdi (some [0xA5, 0x01]) 9 .scanInOut true ustate0) := by
  have h0 : chunksOK ustate0 := by
    refine ⟨?_, ?_, rfl, by simp [ustate0], rfl⟩ <;> simp [ustate0]
  exact ⟨h0, C1_amended (some [0xA5, 0x01]) 9 .scanInOut true ustate0 h0⟩

/-- The command sequence of the C1 counterexample: a 31-bit TMS sequence
    fills the write buffer to 63 bytes, then a 16-bit DR scan that stays
    in DRSHIFT opens its first byte-shift burst with only one free byte. -/
def c1cmds : List JtagCommand :=
  [ .tmsCmd [0xff, 0xff, 0xff, 0xff] 31,
    .scanCmd { ir_scan := false, stype := .scanOut, buf := some [0, 0],
               scan_bits := 16, end_state := .TAP_DRSHIFT } ]

/-- The session after running the C1 counterexample commands. -/
def c1final : UState :=
  (ublast_execute_queue oracle0 c1cmds { ustate0 with tapState := .TAP_DRSHIFT }).2

/-- Claim C1, counterexample.  In the first 64-byte packet sent, byte 63 is
    the byte-shift header 0x80: bit 7 set, READ clear, and N = 0 in the low
    six bits, followed by zero payload bytes.  The strict checker of the
    claim as stated (N between 1 and 63) rejects the packet, while the
    packet is still burst-well-formed in the lax sense. -/
theorem C1_counterexample :
    (c1final.sent.getD 0 []).getD 63 0 = 128 ∧
    checkChunkStrict (c1final.sent.getD 0 []) = false ∧
    checkChunk (c1final.sent.getD 0 []) = true := by decide

/-- The FIFO flush loop of ublast_init after a successful open.  The
    source iterates with the loop head
    for (i = 0; i < 128 / BUF_LEN; i += BUF_LEN),
    writing one 64-byte packet of zeros directly to the transport per
    iteration: the bound 128 / BUF_LEN = 2 is compared against an index
    advancing by BUF_LEN = 64, so the body runs exactly once. -/
def initFlushLoop : Nat → Nat → List (List Nat)
  | 0, _ => []
  | fuel + 1, i =>
    if i < 128 / BUF_LEN then
      List.replicate BUF_LEN 0 :: initFlushLoop fuel (i + BUF_LEN)
    else []

/-- The zero chunks ublast_init writes to flush the probe input FIFO. -/
def ublast_init_fifo_writes : List (List Nat) := initFlushLoop 2 0

/-- ublast_init after a successful open: write the FIFO flush packets
    directly to the transport (bypassing the 64-byte queue), then queue a
    five-bit TMS sequence from tms_reset = 0xff and record RESET. -/
def ublast_init_post_open (s : UState) : UState :=
  let s := { s with sent := s.sent ++ ublast_init_fifo_writes }
  let s := ublast_tms_seq [0xff] 5 s
  { s with tapState := .TAP_RESET }

/-- Claim C7, behavior at the failing input.  After a successful open the
    init writes exactly one 64-byte zero packet (64 bytes, not the 128 of
    the claim and of the comment of the function itself), then queues
    exactly five TMS = 1 TCK pulses (bytes with both TCK and TMS set) and
    records the RESET state. -/
theorem C7_init_flush_bug :
    ublast_init_fifo_writes = [List.replicate 64 0] ∧
    ((ublast_init_post_open ustate0).sent.map List.length).sum = 64 ∧
    (64 : Nat) ≠ 128 ∧
    (ublast_init_post_open ustate0).buf.countP (fun b => b &&& 3 == 3) = 5 ∧
    (ublast_init_post_open ustate0).tapState = .TAP_RESET := by decide

/-
  MIPS32 instruction encoders and the PrAcc engine (mips32.h and
  mips32_pracc.c).
-/

/-- MIPS32 R-type instruction encoder (MIPS32_R_INST in mips32.h). -/
def MIPS32_R_INST (opcode rs rt rd shamt funct : Nat) : Nat :=
  (opcode <<< 26) ||| (rs <<< 21) ||| (rt <<< 16) ||| (rd <<< 11) ||| (shamt <<< 6) ||| funct

/-- MIPS32 I-type instruction encoder (MIPS32_I_INST in mips32.h). -/
def MIPS32_I_INST (opcode rs rt immd : Nat) : Nat :=
  (opcode <<< 26) ||| (rs <<< 21) ||| (rt <<< 16) ||| immd

/-- MIPS32 J-type instruction encoder (MIPS32_J_INST in mips32.h). -/
def MIPS32_J_INST (opcode addr : Nat) : Nat := (opcode <<< 26) ||| addr

def MIPS32_NOP : Nat := 0
def MIPS32_ADDI (tar src val : Nat) : Nat := MIPS32_I_INST 0x08 src tar val
def MIPS32_BEQ (src tar off : Nat) : Nat := MIPS32_I_INST 0x04 src tar off
def MIPS32_BNE (src tar off : Nat) : Nat := MIPS32_I_INST 0x05 src tar off
def MIPS32_B (off : Nat) : Nat := MIPS32_BEQ 0 0 off
def MIPS32_JR (reg : Nat) : Nat := MIPS32_R_INST 0 reg 0 0 0 0x08
def MIPS32_MFC0 (gpr cpr sel : Nat) : Nat := MIPS32_R_INST 0x10 0x00 gpr cpr 0 sel
def MIPS32_MTC0 (gpr cpr sel : Nat) : Nat := MIPS32_R_INST 0x10 0x04 gpr cpr 0 sel
def MIPS32_LBU (reg off base : Nat) : Nat := MIPS32_I_INST 0x24 base reg off
def MIPS32_LHU (reg off base : Nat) : Nat := MIPS32_I_INST 0x25 base reg off
def MIPS32_LUI (reg val : Nat) : Nat := MIPS32_I_INST 0x0F 0 reg val
def MIPS32_LW (reg off base : Nat) : Nat := MIPS32_I_INST 0x23 base reg off
def MIPS32_MFLO (reg : Nat) : Nat := MIPS32_R_INST 0 0 0 reg 0 0x12
def MIPS32_MFHI (reg : Nat) : Nat := MIPS32_R_INST 0 0 0 reg 0 0x10
def MIPS32_MTLO (reg : Nat) : Nat := MIPS32_R_INST 0 reg 0 0 0 0x13
def MIPS32_MTHI (reg : Nat) : Nat := MIPS32_R_INST 0 reg 0 0 0 0x11
def MIPS32_ORI (tar src val : Nat) : Nat := MIPS32_I_INST 0x0D src tar val
def MIPS32_SB (reg off base : Nat) : Nat := MIPS32_I_INST 0x28 base reg off
def MIPS32_SH (reg off base : Nat) : Nat := MIPS32_I_INST 0x29 base reg off
def MIPS32_SW (reg off base : Nat) : Nat := MIPS32_I_INST 0x2B base reg off

/-- Modelled from the spec: UPPER16 comes from the missing header
    mips32_pracc.h; it extracts the upper halfword of a 32-bit value. -/
def UPPER16 (v : Nat) : Nat := v >>> 16

/-- Modelled from the spec: LOWER16 comes from the missing header
    mips32_pracc.h; it extracts the lower halfword of a 32-bit value. -/
def LOWER16 (v : Nat) : Nat := v &&& 0xFFFF

/-- Modelled from the spec: NEG16 comes from the missing header
    mips32_pracc.h; it is the 16-bit two-complement of a value, used for
    negative immediates and branch offsets. -/
def NEG16 (v : Nat) : Nat := (0x10000 - v % 0x10000) % 0x10000

/-- Modelled from the spec: mips32_pracc.h with the EJTAG dmseg addresses
    is not among the sources; the spec says the executor treats them as
    opaque constants supplied by the EJTAG layer and only compares
    addresses against them.  This is the start-of-text (debug vector)
    address of the standard EJTAG debug segment. -/
def MIPS32_PRACC_TEXT : Nat := 0xFF200200

/-- Modelled from the spec: the debug-stack address from the missing
    mips32_pracc.h; the value 0xFF204000 is stated in the header comment
    of mips32_pracc.c. -/
def MIPS32_PRACC_STACK : Nat := 0xFF204000

/-- Modelled from the spec: the input parameter arena address from the
    missing mips32_pracc.h, within 16-bit offset reach of PRACC_STACK. -/
def MIPS32_PRACC_PARAM_IN : Nat := 0xFF201000

/-- Modelled from the spec: the output parameter arena address from the
    missing mips32_pracc.h, within 16-bit offset reach of PRACC_STACK. -/
def MIPS32_PRACC_PARAM_OUT : Nat := 0xFF202000

/-- Modelled from the spec: the FASTDATA area address from the missing
    mips32_pracc.h (the base of the debug segment). -/
def MIPS32_PRACC_FASTDATA_AREA : Nat := 0xFF200000

/-- Modelled from the spec: the size reserved for the resident FASTDATA
    handler, from the missing mips32_pracc.h; the handler words plus the
    four spill slots at its tail fit in 0x80 bytes. -/
def MIPS32_FASTDATA_HANDLER_SIZE : Nat := 0x80

/-- The instruction stub of mips32_pracc_read_mem32 (word reads), copied
    from the static code array of the source. -/
def mips32_pracc_read_mem32_code : List Nat :=
  [ MIPS32_MTC0 15 31 0,
    MIPS32_LUI 15 (UPPER16 MIPS32_PRACC_STACK),
    MIPS32_ORI 15 15 (LOWER16 MIPS32_PRACC_STACK),
    MIPS32_SW 8 0 15,
    MIPS32_SW 9 0 15,
    MIPS32_SW 10 0 15,
    MIPS32_SW 11 0 15,
    MIPS32_LUI 8 (UPPER16 MIPS32_PRACC_PARAM_IN),
    MIPS32_ORI 8 8 (LOWER16 MIPS32_PRACC_PARAM_IN),
    MIPS32_LW 9 0 8,
    MIPS32_LW 10 4 8,
    MIPS32_LUI 11 (UPPER16 MIPS32_PRACC_PARAM_OUT),
    MIPS32_ORI 11 11 (LOWER16 MIPS32_PRACC_PARAM_OUT),
    MIPS32_BEQ 0 10 8,
    MIPS32_NOP,
    MIPS32_LW 8 0 9,
    MIPS32_SW 8 0 11,
    MIPS32_ADDI 10 10 (NEG16 1),
    MIPS32_ADDI 9 9 4,
    MIPS32_ADDI 11 11 4,
    MIPS32_B (NEG16 8),
    MIPS32_NOP,
    MIPS32_LW 11 0 15,
    MIPS32_LW 10 0 15,
    MIPS32_LW 9 0 15,
    MIPS32_LW 8 0 15,
    MIPS32_B (NEG16 27),
    MIPS32_MFC0 15 31 0 ]

/-- The instruction stub of mips32_pracc_read_mem16 (halfword reads),
    copied from the static code array of the source.  Its final
    delay-slot instruction is MIPS32_MFC0(15,30,0): COP0 register 30, not
    the DeSave register 31 named by its own comment. -/
def mips32_pracc_read_mem16_code : List Nat :=
  [ MIPS32_MTC0 15 31 0,
    MIPS32_LUI 15 (UPPER16 MIPS32_PRACC_STACK),
    MIPS32_ORI 15 15 (LOWER16 MIPS32_PRACC_STACK),
    MIPS32_SW 8 0 15,
    MIPS32_SW 9 0 15,
    MIPS32_SW 10 0 15,
    MIPS32_SW 11 0 15,
    MIPS32_LUI 8 (UPPER16 MIPS32_PRACC_PARAM_IN),
    MIPS32_ORI 8 8 (LOWER16 MIPS32_PRACC_PARAM_IN),
    MIPS32_LW 9 0 8,
    MIPS32_LW 10 4 8,
    MIPS32_LUI 11 (UPPER16 MIPS32_PRACC_PARAM_OUT),
    MIPS32_ORI 11 11 (LOWER16 MIPS32_PRACC_PARAM_OUT),
    MIPS32_BEQ 0 10 8,
    MIPS32_NOP,
    MIPS32_LHU 8 0 9,
    MIPS32_SW 8 0 11,
    MIPS32_ADDI 10 10 (NEG16 1),
    MIPS32_ADDI 9 9 2,
    MIPS32_ADDI 11 11 4,
    MIPS32_B (NEG16 8),
    MIPS32_NOP,
    MIPS32_LW 11 0 15,
    MIPS32_LW 10 0 15,
    MIPS32_LW 9 0 15,
    MIPS32_LW 8 0 15,
    MIPS32_B (NEG16 27),
    MIPS32_MFC0 15 30 0 ]

/-- Claim C6, the DeSave restore bug.  The read_mem32 stub stashes $15 in
    COP0 DeSave (MTC0 15,31,0) as its first action and restores it with
    MFC0 15,31,0 in its final delay slot; the read_mem16 stub stashes $15
    the same way but its final instruction encodes MFC0 15,30,0 (COP0
    register 30), a different word than MFC0 15,31,0, so $15 is not
    restored from DeSave as the claim and the comment of the stub state. -/
theorem C6_desave_restore_bug :
    mips32_pracc_read_mem32_code.head? = some (MIPS32_MTC0 15 31 0) ∧
    mips32_pracc_read_mem32_code.getLast? = some (MIPS32_MFC0 15 31 0) ∧
    mips32_pracc_read_mem16_code.head? = some (MIPS32_MTC0 15 31 0) ∧
    mips32_pracc_read_mem16_code.getLast? = some (MIPS32_MFC0 15 30 0) ∧
    MIPS32_MFC0 15 30 0 ≠ MIPS32_MFC0 15 31 0 := by decide

/-- The PrAcc execution context (struct mips32_pracc_context): the
    caller-provided parameter arenas and code with their counts, and the
    32-slot debug stack (stack_offset is stack.length, the head is the
    most recently pushed word). -/
structure PraccCtx where
  local_iparam : List Nat
  num_iparam : Nat
  local_oparam : List Nat
  num_oparam : Nat
  code : List Nat
  code_len : Nat
  stack : List Nat
deriving DecidableEq, Repr

/-- Error outcomes of the executor.  addrReadErr / addrWriteErr are the
    ERROR_JTAG_DEVICE_ERROR returns for an address outside every arena;
    stackUnderflow marks the unguarded pop at offset 0 (the source reads
    stack[-1] there) and stackOverflow the unguarded push at offset 32
    (the source writes stack[32]); timeout is the 1 s PrAcc deadline of
    wait_for_pracc when the target issues no further access. -/
inductive PraccErr
  | addrReadErr
  | addrWriteErr
  | stackUnderflow
  | stackOverflow
  | timeout
deriving DecidableEq, Repr

/-- One processor access served by the executor: the target reads (fetch
    or load, PRNW = 0) or writes (store, PRNW = 1) at an address. -/
inductive PraccAccess
  | rd (addr : Nat)
  | wr (addr : Nat) (data : Nat)
deriving DecidableEq, Repr

/-- Address range test of the input parameter arena, as the source writes
    it (note the inclusive upper bound PARAM_IN + num * 4). -/
def inParamIn (num addr : Nat) : Prop :=
  MIPS32_PRACC_PARAM_IN ≤ addr ∧ addr ≤ MIPS32_PRACC_PARAM_IN + num * 4

/-- Address range test of the output parameter arena. -/
def inParamOut (num addr : Nat) : Prop :=
  MIPS32_PRACC_PARAM_OUT ≤ addr ∧ addr ≤ MIPS32_PRACC_PARAM_OUT + num * 4

/-- Address range test of the code (text) region. -/
def inText (codeLen addr : Nat) : Prop :=
  MIPS32_PRACC_TEXT ≤ addr ∧ addr ≤ MIPS32_PRACC_TEXT + codeLen * 4

instance (num addr : Nat) : Decidable (inParamIn num addr) := by
  unfold inParamIn; infer_instance

instance (num addr : Nat) : Decidable (inParamOut num addr) := by
  unfold inParamOut; infer_instance

instance (codeLen addr : Nat) : Decidable (inText codeLen addr) := by
  unfold inText; infer_instance

/-- mips32_pracc_exec_read: serve a target read.  The regions are tried
    in the order of the source (param-in, param-out, text, stack); the
    served word is returned with the updated context.  A pop from the
    empty stack is the out-of-bounds stack[-1] read of the source,
    reported here as stackUnderflow. -/
def mips32_pracc_exec_read (ctx : PraccCtx) (address : Nat) :
    Except PraccErr (Nat × PraccCtx) :=
  if inParamIn ctx.num_iparam address then
    .ok (ctx.local_iparam.getD ((address - MIPS32_PRACC_PARAM_IN) / 4) 0, ctx)
  else if inParamOut ctx.num_oparam address then
    .ok (ctx.local_oparam.getD ((address - MIPS32_PRACC_PARAM_OUT) / 4) 0, ctx)
  else if inText ctx.code_len address then
    .ok (ctx.code.getD ((address - MIPS32_PRACC_TEXT) / 4) 0, ctx)
  else if address = MIPS32_PRACC_STACK then
    match ctx.stack with
    | [] => .error .stackUnderflow
    | top :: rest => .ok (top, { ctx with stack := rest })
  else .error .addrReadErr

/-- mips32_pracc_exec_write: absorb a target write.  The regions are
    tried in the order of the source (param-in, param-out, stack); a push
    with 32 words already stacked is the out-of-bounds stack[32] write of
    the source, reported here as stackOverflow. -/
def mips32_pracc_exec_write (ctx : PraccCtx) (address data : Nat) :
    Except PraccErr PraccCtx :=
  if inParamIn ctx.num_iparam address then
    .ok { ctx with local_iparam :=
      ctx.local_iparam.set ((address - MIPS32_PRACC_PARAM_IN) / 4) data }
  else if inParamOut ctx.num_oparam address then
    .ok { ctx with local_oparam :=
      ctx.local_oparam.set ((address - MIPS32_PRACC_PARAM_OUT) / 4) data }
  else if address = MIPS32_PRACC_STACK then
    if ctx.stack.length < 32 then .ok { ctx with stack := data :: ctx.stack }
    else .error .stackOverflow
  else .error .addrWriteErr

/-- The outcome of a mips32_pracc_exec run: retval is none for ERROR_OK,
    served counts the accesses processed by exec_read / exec_write,
    consumed counts the accesses whose address was scanned (served plus
    the terminating second text fetch when the loop breaks there). -/
structure PraccResult where
  retval : Option PraccErr
  served : Nat
  consumed : Nat
  ctx : PraccCtx
deriving DecidableEq, Repr

/-- The service loop of mips32_pracc_exec over the trace of target
    accesses.  pass counts the reads observed at MIPS32_PRACC_TEXT: the
    first is served, the second breaks the loop (ERROR_OK).  With
    cycle = 0 the loop body runs exactly once.  An exhausted trace stands
    for a target that stops requesting accesses, which the source turns
    into the 1 s wait_for_pracc timeout. -/
def praccExecLoop (cycle : Nat) : PraccCtx → Nat → List PraccAccess → PraccResult
  | ctx, _, [] => ⟨some .timeout, 0, 0, ctx⟩
  | ctx, pass, .wr addr data :: rest =>
    match mips32_pracc_exec_write ctx addr data with
    | .error e => ⟨some e, 0, 1, ctx⟩
    | .ok ctx1 =>
      if cycle = 0 then ⟨none, 1, 1, ctx1⟩
      else
        let r := praccExecLoop cycle ctx1 pass rest
        ⟨r.retval, r.served + 1, r.consumed + 1, r.ctx⟩
  | ctx, pass, .rd addr :: rest =>
    if addr = MIPS32_PRACC_TEXT ∧ pass ≠ 0 then ⟨none, 0, 1, ctx⟩
    else
      let pass1 := if addr = MIPS32_PRACC_TEXT then pass + 1 else pass
      match mips32_pracc_exec_read ctx addr with
      | .error e => ⟨some e, 0, 1, ctx⟩
      | .ok (_, ctx1) =>
        if cycle = 0 then ⟨none, 1, 1, ctx1⟩
        else
          let r := praccExecLoop cycle ctx1 pass1 rest
          ⟨r.retval, r.served + 1, r.consumed + 1, r.ctx⟩

/-- mips32_pracc_exec: build the context (stack_offset starts at 0) and
    run the service loop with pass = 0 over the access trace. -/
def mips32_pracc_exec (code_len : Nat) (code : List Nat) (num_in : Nat)
    (p_in : List Nat) (num_out : Nat) (p_out : List Nat) (cycle : Nat)
    (trace : List PraccAccess) : PraccResult :=
  praccExecLoop cycle ⟨p_in, num_in, p_out, num_out, code, code_len, []⟩ 0 trace

/-- Reads observed at the start-of-text address in a trace. -/
def countTextReads : List PraccAccess → Nat
  | [] => 0
  | .rd a :: rest => (if a = MIPS32_PRACC_TEXT then 1 else 0) + countTextReads rest
  | .wr _ _ :: rest => countTextReads rest

/-- Serve every access of a trace through exec_read / exec_write without
    the break test, tracking the pass counter; none when some access
    errors.  This is the validity hypothesis of the C4 statement. -/
def praccServeAll : PraccCtx → Nat → List PraccAccess → Option (PraccCtx × Nat)
  | ctx, pass, [] => some (ctx, pass)
  | ctx, pass, .rd addr :: rest =>
    let pass1 := if addr = MIPS32_PRACC_TEXT then pass + 1 else pass
    match mips32_pracc_exec_read ctx addr with
    | .error _ => none
    | .ok (_, ctx1) => praccServeAll ctx1 pass1 rest
  | ctx, pass, .wr addr data :: rest =>
    match mips32_pracc_exec_write ctx addr data with
    | .error _ => none
    | .ok ctx1 => praccServeAll ctx1 pass rest

lemma praccExecLoop_stops_at_second_text (rest : List PraccAccess) :
    ∀ (pre : List PraccAccess) (ctx : PraccCtx) (p : Nat) (ctx1 : PraccCtx) (p1 : Nat),
    p + countTextReads pre = 1 →
    praccServeAll ctx p pre = some (ctx1, p1) →
    praccExecLoop 1 ctx p (pre ++ .rd MIPS32_PRACC_TEXT :: rest) =
      ⟨none, pre.length, pre.length + 1, ctx1⟩ := by
  intro pre
  induction pre with
  | nil =>
    intro ctx p ctx1 p1 hcount hserve
    have hp : p = 1 := by simpa [countTextReads] using hcount
    subst hp
    simp only [praccServeAll, Option.some.injEq, Prod.mk.injEq] at hserve
    obtain ⟨hc, _⟩ := hserve
    subst hc
    simp [praccExecLoop]
  | cons a pre ih =>
    intro ctx p ctx1 p1 hcount hserve
    cases a with
    | wr addr data =>
      simp only [countTextReads] at hcount
      simp only [praccServeAll] at hserve
      cases hw : mips32_pracc_exec_write ctx addr data with
      | error e => rw [hw] at hserve; exact absurd hserve (by simp)
      | ok ctx2 =>
        rw [hw] at hserve
        dsimp only at hserve
        have hrec := ih ctx2 p ctx1 p1 hcount hserve
        simp [praccExecLoop, List.cons_append, hw, hrec, List.length_cons]
    | rd addr =>
      simp only [countTextReads] at hcount
      simp only [praccServeAll] at hserve
      by_cases ht : addr = MIPS32_PRACC_TEXT
      · subst ht
        rw [if_pos rfl] at hcount
        have hp0 : p = 0 := by omega
        subst hp0
        cases hr : mips32_pracc_exec_read ctx MIPS32_PRACC_TEXT with
        | error e => rw [hr] at hserve; exact absurd hserve (by simp)
        | ok pc =>
          obtain ⟨d, ctx2⟩ := pc
          rw [hr] at hserve
          have hcount2 : 1 + countTextReads pre = 1 := by omega
          have hserve2 : praccServeAll ctx2 1 pre = some (ctx1, p1) := by
            simpa using hserve
          have hrec := ih ctx2 1 ctx1 p1 hcount2 hserve2
          simp [praccExecLoop, List.cons_append, hr, hrec, List.length_cons]
      · simp only [ht, if_false] at hcount hserve
        cases hr : mips32_pracc_exec_read ctx addr with
        | error e => rw [hr] at hserve; exact absurd hserve (by simp)
        | ok pc =>
          obtain ⟨d, ctx2⟩ := pc
          rw [hr] at hserve
          dsimp only at hserve
          have hrec := ih ctx2 p ctx1 p1 (by omega) hserve
          simp [praccExecLoop, List.cons_append, ht, hr, hrec, List.length_cons]

lemma praccExecLoop_cycle0 (a : PraccAccess) (rest : List PraccAccess)
    (ctx ctx1 : PraccCtx) (p1 : Nat)
    (hserve : praccServeAll ctx 0 [a] = some (ctx1, p1)) :
    praccExecLoop 0 ctx 0 (a :: rest) = ⟨none, 1, 1, ctx1⟩ := by
  cases a with
  | wr addr data =>
    simp only [praccServeAll] at hserve
    cases hw : mips32_pracc_exec_write ctx addr data with
    | error e => rw [hw] at hserve; exact absurd hserve (by simp)
    | ok ctx2 =>
      rw [hw] at hserve
      dsimp only at hserve
      simp only [praccServeAll, Option.some.injEq, Prod.mk.injEq] at hserve
      obtain ⟨hc, _⟩ := hserve
      subst hc
      simp [praccExecLoop, hw]
  | rd addr =>
    simp only [praccServeAll] at hserve
    cases hr : mips32_pracc_exec_read ctx addr with
    | error e => rw [hr] at hserve; exact absurd hserve (by simp)
    | ok pc =>
      obtain ⟨d, ctx2⟩ := pc
      rw [hr] at hserve
      dsimp only at hserve
      simp only [praccServeAll, Option.some.injEq, Prod.mk.injEq] at hserve
      obtain ⟨hc, _⟩ := hserve
      subst hc
      simp [praccExecLoop, hr]

/-- Claim C4.  With cycle = 1 the service loop of mips32_pracc_exec
    terminates exactly when a read at MIPS32_PRACC_TEXT is observed for
    the second time: for every trace consisting of a prefix with exactly
    one text read, all of it served without error, followed by a second
    text read, the executor serves exactly the prefix, consumes the
    second text read without serving it, and returns ERROR_OK regardless
    of what follows.  With cycle = 0 the loop runs exactly one service
    cycle (one access served) and exits with ERROR_OK. -/
theorem C4_exec_termination :
    (∀ (code_len : Nat) (code : List Nat) (num_in : Nat) (p_in : List Nat)
       (num_out : Nat) (p_out : List Nat) (pre rest : List PraccAccess)
       (ctx1 : PraccCtx) (p1 : Nat),
       countTextReads pre = 1 →
       praccServeAll ⟨p_in, num_in, p_out, num_out, code, code_len, []⟩ 0 pre
         = some (ctx1, p1) →
       mips32_pracc_exec code_len code num_in p_in num_out p_out 1
           (pre ++ .rd MIPS32_PRACC_TEXT :: rest)
         = ⟨none, pre.length, pre.length + 1, ctx1⟩) ∧
    (∀ (code_len : Nat) (code : List Nat) (num_in : Nat) (p_in : List Nat)
       (num_out : Nat) (p_out : List Nat) (a : PraccAccess)
       (rest : List PraccAccess) (ctx1 : PraccCtx) (p1 : Nat),
       praccServeAll ⟨p_in, num_in, p_out, num_out, code, code_len, []⟩ 0 [a]
         = some (ctx1, p1) →
       mips32_pracc_exec code_len code num_in p_in num_out p_out 0 (a :: rest)
         = ⟨none, 1, 1, ctx1⟩) := by
  constructor
  · intro code_len code num_in p_in num_out p_out pre rest ctx1 p1 hcount hserve
    exact praccExecLoop_stops_at_second_text rest pre _ 0 ctx1 p1
      (by simpa using hcount) hserve
  · intro code_len code num_in p_in num_out p_out a rest ctx1 p1 hserve
    exact praccExecLoop_cycle0 a rest _ ctx1 p1 hserve

/-- Witness for C4: a run whose stub is a single word.  The prefix is the
    first fetch at the text base; the second text read ends the run after
    serving exactly that one fetch (cycle = 1), and with cycle = 0 a
    single parameter write is the one served cycle. -/
theorem C4_exec_termination_witness :
    (countTextReads [PraccAccess.rd MIPS32_PRACC_TEXT] = 1 ∧
     mips32_pracc_exec 1 [0] 0 [] 0 [] 1
       [PraccAccess.rd MIPS32_PRACC_TEXT, PraccAccess.rd MIPS32_PRACC_TEXT]
       = ⟨none, 1, 2, ⟨[], 0, [], 0, [0], 1, []⟩⟩) ∧
    mips32_pracc_exec 1 [0] 2 [7, 7] 0 [] 0
      [PraccAccess.wr MIPS32_PRACC_PARAM_IN 5]
      = ⟨none, 1, 1, ⟨[5, 7], 2, [], 0, [0], 1, []⟩⟩ := by
  constructor
  · constructor
    · decide
    · exact C4_exec_termination.1 1 [0] 0 [] 0 []
        [PraccAccess.rd MIPS32_PRACC_TEXT] [] ⟨[], 0, [], 0, [0], 1, []⟩ 1
        (by decide) (by decide)
  · exact C4_exec_termination.2 1 [0] 2 [7, 7] 0 []
      (PraccAccess.wr MIPS32_PRACC_PARAM_IN 5) [] ⟨[5, 7], 2, [], 0, [0], 1, []⟩ 0
      (by decide)

/-- The stack discipline of an access trace, judged with the same region
    routing the executor uses (the arena sizes are fixed for a run): off
    is the running stack offset; a read landing on PRACC_STACK requires a
    positive offset and decrements it, a write landing on PRACC_STACK
    requires an offset below 32 and increments it. -/
def stackDisciplined (numIn numOut codeLen : Nat) : Nat → List PraccAccess → Bool
  | _, [] => true
  | off, .rd addr :: rest =>
    if inParamIn numIn addr then stackDisciplined numIn numOut codeLen off rest
    else if inParamOut numOut addr then stackDisciplined numIn numOut codeLen off rest
    else if inText codeLen addr then stackDisciplined numIn numOut codeLen off rest
    else if addr = MIPS32_PRACC_STACK then
      decide (0 < off) && stackDisciplined numIn numOut codeLen (off - 1) rest
    else stackDisciplined numIn numOut codeLen off rest
  | off, .wr addr _ :: rest =>
    if inParamIn numIn addr then stackDisciplined numIn numOut codeLen off rest
    else if inParamOut numOut addr then stackDisciplined numIn numOut codeLen off rest
    else if addr = MIPS32_PRACC_STACK then
      decide (off < 32) && stackDisciplined numIn numOut codeLen (off + 1) rest
    else stackDisciplined numIn numOut codeLen off rest

lemma praccExecLoop_stack_safe (cycle : Nat) :
    ∀ (tr : List PraccAccess) (ctx : PraccCtx) (pass : Nat),
    ctx.stack.length ≤ 32 →
    stackDisciplined ctx.num_iparam ctx.num_oparam ctx.code_len ctx.stack.length tr
      = true →
    (praccExecLoop cycle ctx pass tr).retval ≠ some .stackUnderflow ∧
    (praccExecLoop cycle ctx pass tr).retval ≠ some .stackOverflow ∧
    (praccExecLoop cycle ctx pass tr).ctx.stack.length ≤ 32 := by
  intro tr
  induction tr with
  | nil =>
    intro ctx pass h32 hd
    exact ⟨by simp [praccExecLoop], by simp [praccExecLoop], by simp [praccExecLoop, h32]⟩
  | cons a rest ih =>
    intro ctx pass h32 hd
    cases a with
    | rd addr =>
      simp only [stackDisciplined] at hd
      by_cases hb : addr = MIPS32_PRACC_TEXT ∧ pass ≠ 0
      · simp only [praccExecLoop, if_pos hb]
        exact ⟨by simp, by simp, h32⟩
      · simp only [praccExecLoop, if_neg hb]
        by_cases h1 : inParamIn ctx.num_iparam addr
        · rw [if_pos h1] at hd
          have hr : mips32_pracc_exec_read ctx addr =
              .ok (ctx.local_iparam.getD ((addr - MIPS32_PRACC_PARAM_IN) / 4) 0, ctx) := by
            unfold mips32_pracc_exec_read
            rw [if_pos h1]
          rw [hr]
          dsimp only
          split
          · exact ⟨by simp, by simp, h32⟩
          · have hrec := ih ctx (if addr = MIPS32_PRACC_TEXT then pass + 1 else pass) h32 hd
            exact ⟨by simp [hrec.1], by simp [hrec.2.1], by simp [hrec.2.2]⟩
        · rw [if_neg h1] at hd
          by_cases h2 : inParamOut ctx.num_oparam addr
          · rw [if_pos h2] at hd
            have hr : mips32_pracc_exec_read ctx addr =
                .ok (ctx.local_oparam.getD ((addr - MIPS32_PRACC_PARAM_OUT) / 4) 0, ctx) := by
              unfold mips32_pracc_exec_read
              rw [if_neg h1, if_pos h2]
            rw [hr]
            dsimp only
            split
            · exact ⟨by simp, by simp, h32⟩
            · have hrec := ih ctx (if addr = MIPS32_PRACC_TEXT then pass + 1 else pass) h32 hd
              exact ⟨by simp [hrec.1], by simp [hrec.2.1], by simp [hrec.2.2]⟩
          · rw [if_neg h2] at hd
            by_cases h3 : inText ctx.code_len addr
            · rw [if_pos h3] at hd
              have hr : mips32_pracc_exec_read ctx addr =
                  .ok (ctx.code.getD ((addr - MIPS32_PRACC_TEXT) / 4) 0, ctx) := by
                unfold mips32_pracc_exec_read
                rw [if_neg h1, if_neg h2, if_pos h3]
              rw [hr]
              dsimp only
              split
              · exact ⟨by simp, by simp, h32⟩
              · have hrec := ih ctx (if addr = MIPS32_PRACC_TEXT then pass + 1 else pass) h32 hd
                exact ⟨by simp [hrec.1], by simp [hrec.2.1], by simp [hrec.2.2]⟩
            · rw [if_neg h3] at hd
              by_cases h4 : addr = MIPS32_PRACC_STACK
              · rw [if_pos h4] at hd
                rw [Bool.and_eq_true, decide_eq_true_iff] at hd
                obtain ⟨hpos, hd⟩ := hd
                cases hs : ctx.stack with
                | nil => rw [hs] at hpos; simp at hpos
                | cons top srest =>
                  have hr : mips32_pracc_exec_read ctx addr =
                      .ok (top, { ctx with stack := srest }) := by
                    unfold mips32_pracc_exec_read
                    rw [if_neg h1, if_neg h2, if_neg h3, if_pos h4, hs]
                  rw [hr]
                  dsimp only
                  have hlen : srest.length = ctx.stack.length - 1 := by
                    rw [hs]
                    simp
                  split
                  · refine ⟨by simp, by simp, ?_⟩
                    simp only
                    omega
                  · have hrec := ih { ctx with stack := srest }
                      (if addr = MIPS32_PRACC_TEXT then pass + 1 else pass)
                      (by simp only; omega) (by simpa [hlen] using hd)
                    exact ⟨by simp [hrec.1], by simp [hrec.2.1], by simp [hrec.2.2]⟩
              · have hr : mips32_pracc_exec_read ctx addr = .error .addrReadErr := by
                  unfold mips32_pracc_exec_read
                  rw [if_neg h1, if_neg h2, if_neg h3, if_neg h4]
                rw [hr]
                dsimp only
                exact ⟨by simp, by simp, h32⟩
    | wr addr data =>
      simp only [stackDisciplined] at hd
      simp only [praccExecLoop]
      by_cases h1 : inParamIn ctx.num_iparam addr
      · rw [if_pos h1] at hd
        obtain ⟨ctxW, hw, hn1, hn2, hcl, hstk⟩ :
            ∃ c, mips32_pracc_exec_write ctx addr data = .ok c ∧
              c.num_iparam = ctx.num_iparam ∧ c.num_oparam = ctx.num_oparam ∧
              c.code_len = ctx.code_len ∧ c.stack = ctx.stack := by
          unfold mips32_pracc_exec_write
          rw [if_pos h1]
          exact ⟨_, rfl, rfl, rfl, rfl, rfl⟩
        rw [hw]
        dsimp only
        split
        · exact ⟨by simp, by simp, by rw [hstk]; exact h32⟩
        · have hrec := ih ctxW pass (by rw [hstk]; exact h32)
            (by rw [hn1, hn2, hcl, hstk]; exact hd)
          exact ⟨by simp [hrec.1], by simp [hrec.2.1], by simp [hrec.2.2]⟩
      · rw [if_neg h1] at hd
        by_cases h2 : inParamOut ctx.num_oparam addr
        · rw [if_pos h2] at hd
          obtain ⟨ctxW, hw, hn1, hn2, hcl, hstk⟩ :
              ∃ c, mips32_pracc_exec_write ctx addr data = .ok c ∧
                c.num_iparam = ctx.num_iparam ∧ c.num_oparam = ctx.num_oparam ∧
                c.code_len = ctx.code_len ∧ c.stack = ctx.stack := by
            unfold mips32_pracc_exec_write
            rw [if_neg h1, if_pos h2]
            exact ⟨_, rfl, rfl, rfl, rfl, rfl⟩
          rw [hw]
          dsimp only
          split
          · exact ⟨by simp, by simp, by rw [hstk]; exact h32⟩
          · have hrec := ih ctxW pass (by rw [hstk]; exact h32)
              (by rw [hn1, hn2, hcl, hstk]; exact hd)
            exact ⟨by simp [hrec.1], by simp [hrec.2.1], by simp [hrec.2.2]⟩
        · rw [if_neg h2] at hd
          by_cases h3 : addr = MIPS32_PRACC_STACK
          · rw [if_pos h3] at hd
            rw [Bool.and_eq_true, decide_eq_true_iff] at hd
            obtain ⟨hlt, hd⟩ := hd
            have hw : mips32_pracc_exec_write ctx addr data =
                .ok { ctx with stack := data :: ctx.stack } := by
              unfold mips32_pracc_exec_write
              rw [if_neg h1, if_neg h2, if_pos h3, if_pos hlt]
            rw [hw]
            dsimp only
            split
            · refine ⟨by simp, by simp, ?_⟩
              simp only [List.length_cons]
              omega
            · have hrec := ih { ctx with stack := data :: ctx.stack } pass
                (by simp only [List.length_cons]; omega)
                (by simpa [List.length_cons] using hd)
              exact ⟨by simp [hrec.1], by simp [hrec.2.1], by simp [hrec.2.2]⟩
          · have hw : mips32_pracc_exec_write ctx addr data = .error .addrWriteErr := by
              unfold mips32_pracc_exec_write
              rw [if_neg h1, if_neg h2, if_neg h3]
            rw [hw]
            dsimp only
            exact ⟨by simp, by simp, h32⟩

/-- Claim C9, amended.  The executor performs unguarded stack accesses: a
    pop at offset 0 reads index -1 and a push at offset 32 writes index
    32 (modelled as stackUnderflow / stackOverflow outcomes).  For every
    run whose access trace keeps the stack discipline (every pop preceded
    by more pushes, never more than 32 pending), no stack access leaves
    stack[0..31] and the offset stays in [0, 32]. -/
theorem C9_amended (code_len : Nat) (code : List Nat) (num_in : Nat)
    (p_in : List Nat) (num_out : Nat) (p_out : List Nat) (cycle : Nat)
    (tr : List PraccAccess)
    (h : stackDisciplined num_in num_out code_len 0 tr = true) :
    (mips32_pracc_exec code_len code num_in p_in num_out p_out cycle tr).retval
      ≠ some .stackUnderflow ∧
    (mips32_pracc_exec code_len code num_in p_in num_out p_out cycle tr).retval
      ≠ some .stackOverflow ∧
    (mips32_pracc_exec code_len code num_in p_in num_out p_out cycle tr).ctx.stack.length
      ≤ 32 := by
  unfold mips32_pracc_exec
  exact praccExecLoop_stack_safe cycle tr ⟨p_in, num_in, p_out, num_out, code, code_len, []⟩
    0 (by simp) h

/-- Witness for C9_amended: a push then a pop at PRACC_STACK is a
    disciplined trace and the run flags no stack fault. -/
theorem C9_amended_witness :
    stackDisciplined 0 0 1 0
      [PraccAccess.wr MIPS32_PRACC_STACK 5, PraccAccess.rd MIPS32_PRACC_STACK] = true ∧
    ((mips32_pracc_exec 1 [0] 0 [] 0 [] 1
        [PraccAccess.wr MIPS32_PRACC_STACK 5, PraccAccess.rd MIPS32_PRACC_STACK]).retval
      ≠ some .stackUnderflow ∧
     (mips32_pracc_exec 1 [0] 0 [] 0 [] 1
        [PraccAccess.wr MIPS32_PRACC_STACK 5, PraccAccess.rd MIPS32_PRACC_STACK]).retval
      ≠ some .stackOverflow ∧
     (mips32_pracc_exec 1 [0] 0 [] 0 [] 1
        [PraccAccess.wr MIPS32_PRACC_STACK 5, PraccAccess.rd MIPS32_PRACC_STACK]).ctx.stack.length
      ≤ 32) :=
  ⟨by decide, C9_amended 1 [0] 0 [] 0 [] 1
    [PraccAccess.wr MIPS32_PRACC_STACK 5, PraccAccess.rd MIPS32_PRACC_STACK] (by decide)⟩

/-- Claim C9, counterexample.  A target read at PRACC_STACK as the very
    first access pops the empty debug stack: the source executes
    stack[--stack_offset] with stack_offset = 0, reading index -1; the
    model reports the underflow.  No guard in the executor prevents it. -/
theorem C9_counterexample :
    (mips32_pracc_exec 0 [] 0 [] 0 [] 1 [PraccAccess.rd MIPS32_PRACC_STACK]).retval
      = some PraccErr.stackUnderflow := by decide

/-- The while loop of mips32_pracc_read_mem32, projected to the sequence
    of pracc_exec invocations: one (addr, blocksize) input-parameter pair
    per block, blocksize clamped to 0x400, count reduced and addr
    advanced by blocksize as in the source.  The fuel is the initial
    count; every block removes at least one element, so it suffices. -/
def read32Loop : Nat → Nat → Nat → List (Nat × Nat)
  | 0, _, _ => []
  | fuel + 1, addr, count =>
    if count = 0 then []
    else
      let blocksize := if count > 0x400 then 0x400 else count
      (addr, blocksize) :: read32Loop fuel (addr + blocksize) (count - blocksize)

/-- The pracc_exec invocations of mips32_pracc_read_mem32. -/
def mips32_pracc_read_mem32_calls (addr count : Nat) : List (Nat × Nat) :=
  read32Loop count addr count

/-- The pracc_exec invocations of mips32_pracc_write_mem32: a single call
    whose input parameters are the start address, the end address
    addr + count * 4, and the count data words.  The source has no 0x400
    blocking loop around it. -/
def mips32_pracc_write_mem32_calls (addr count : Nat) (data : List Nat) :
    List (List Nat) :=
  [addr :: (addr + count * 4) :: data]

/-- The pracc_exec invocations of mips32_pracc_read_mem16: a single call
    (the while loop around the blocksize clamp is commented out in the
    source); the input parameters carry (addr, blocksize clamped to
    0x400) while the output count passed to the executor is the full
    count. -/
def mips32_pracc_read_mem16_calls (addr count : Nat) : List (Nat × Nat) :=
  [(addr, if count > 0x400 then 0x400 else count)]

/-- The pracc_exec invocations of mips32_pracc_read_mem8, identical in
    shape to the halfword read. -/
def mips32_pracc_read_mem8_calls (addr count : Nat) : List (Nat × Nat) :=
  [(addr, if count > 0x400 then 0x400 else count)]

lemma read32Loop_sum_bounds :
    ∀ (fuel addr count : Nat), count ≤ fuel →
    ((read32Loop fuel addr count).map Prod.snd).sum = count ∧
    ∀ p ∈ read32Loop fuel addr count, 1 ≤ p.2 ∧ p.2 ≤ 0x400 := by
  intro fuel
  induction fuel with
  | zero =>
    intro addr count h
    have hc : count = 0 := by omega
    subst hc
    exact ⟨rfl, by intro p hp; exact absurd hp (by simp [read32Loop])⟩
  | succ n ih =>
    intro addr count h
    by_cases hc : count = 0
    · subst hc
      exact ⟨by simp [read32Loop], by intro p hp; exact absurd hp (by simp [read32Loop])⟩
    · have hbs : (if count > 0x400 then 0x400 else count) ≥ 1 ∧
          (if count > 0x400 then 0x400 else count) ≤ 0x400 ∧
          (if count > 0x400 then 0x400 else count) ≤ count := by
        split <;> omega
      obtain ⟨hsum, hmem⟩ := ih (addr + (if count > 0x400 then 0x400 else count))
        (count - (if count > 0x400 then 0x400 else count)) (by omega)
      constructor
      · simp only [read32Loop, if_neg hc, List.map_cons, List.sum_cons, hsum]
        omega
      · intro p hp
        simp only [read32Loop, if_neg hc, List.mem_cons] at hp
        rcases hp with hp | hp
        · rw [hp]
          exact ⟨hbs.1, hbs.2.1⟩
        · exact hmem p hp

lemma read32Loop_snd_indep :
    ∀ (fuel a b count : Nat),
    (read32Loop fuel a count).map Prod.snd = (read32Loop fuel b count).map Prod.snd := by
  intro fuel
  induction fuel with
  | zero => intro a b count; rfl
  | succ n ih =>
    intro a b count
    by_cases hc : count = 0
    · simp [read32Loop, hc]
    · simp only [read32Loop, if_neg hc, List.map_cons]
      rw [ih]

/-- Claim C5, amended.  32-bit reads are issued to the PrAcc executor in
    blocks of at most 0x400 elements summing to the full count (0x500
    gives blocks 0x400 and 0x100); 32-bit writes are issued as a single
    execution covering the full count with no blocking; the 16-bit and
    8-bit read primitives issue a single execution whose in-parameter
    block length is the count clamped to 0x400. -/
theorem C5_amended (addr count : Nat) (data : List Nat) (h : 0 < count) :
    (∀ p ∈ mips32_pracc_read_mem32_calls addr count, 1 ≤ p.2 ∧ p.2 ≤ 0x400) ∧
    ((mips32_pracc_read_mem32_calls addr count).map Prod.snd).sum = count ∧
    (count = 0x500 →
      (mips32_pracc_read_mem32_calls addr count).map Prod.snd = [0x400, 0x100]) ∧
    mips32_pracc_write_mem32_calls addr count data
      = [addr :: (addr + count * 4) :: data] ∧
    (mips32_pracc_write_mem32_calls addr count data).length = 1 ∧
    mips32_pracc_read_mem16_calls addr count
      = [(addr, if count > 0x400 then 0x400 else count)] ∧
    mips32_pracc_read_mem8_calls addr count
      = [(addr, if count > 0x400 then 0x400 else count)] := by
  obtain ⟨hsum, hmem⟩ := read32Loop_sum_bounds count addr count (le_refl count)
  refine ⟨hmem, hsum, ?_, rfl, rfl, rfl, rfl⟩
  intro hc
  subst hc
  unfold mips32_pracc_read_mem32_calls
  rw [read32Loop_snd_indep 0x500 addr 0 0x500]
  decide

/-- Witness for C5_amended at count 0x500: the read path splits into the
    two blocks 0x400 and 0x100 while the write path issues one unblocked
    execution. -/
theorem C5_amended_witness :
    (0 : Nat) < 0x500 ∧
    ((∀ p ∈ mips32_pracc_read_mem32_calls 0 0x500, 1 ≤ p.2 ∧ p.2 ≤ 0x400) ∧
     ((mips32_pracc_read_mem32_calls 0 0x500).map Prod.snd).sum = 0x500 ∧
     ((0x500 : Nat) = 0x500 →
       (mips32_pracc_read_mem32_calls 0 0x500).map Prod.snd = [0x400, 0x100]) ∧
     mips32_pracc_write_mem32_calls 0 0x500 [] = [0 :: (0 + 0x500 * 4) :: []] ∧
     (mips32_pracc_write_mem32_calls 0 0x500 []).length = 1 ∧
     mips32_pracc_read_mem16_calls 0 0x500
       = [(0, if 0x500 > 0x400 then 0x400 else 0x500)] ∧
     mips32_pracc_read_mem8_calls 0 0x500
       = [(0, if 0x500 > 0x400 then 0x400 else 0x500)]) :=
  ⟨by decide, C5_amended 0 0x500 [] (by decide)⟩

/-- Claim C5, counterexample.  A 32-bit write of 0x500 words is issued as
    ONE pracc_exec invocation covering all 0x500 elements (its end
    address encodes 0x500 words), not as the two blocked executions of
    0x400 and 0x100 elements the claim requires for writes. -/
theorem C5_counterexample :
    (mips32_pracc_write_mem32_calls 0xA0000000 0x500 (List.replicate 0x500 0)).length = 1 ∧
    (mips32_pracc_write_mem32_calls 0xA0000000 0x500 (List.replicate 0x500 0))
      = [0xA0000000 :: (0xA0000000 + 0x500 * 4) :: List.replicate 0x500 0] ∧
    (1 : Nat) ≠ 2 ∧ (0x400 : Nat) < 0x500 := by
  exact ⟨rfl, rfl, by decide, by decide⟩

/-
  The FASTDATA transfer engine (mips32_pracc_fastdata_xfer).
-/

/-- Errors of the fastdata transfer: resourceNotAvailable is
    ERROR_TARGET_RESOURCE_NOT_AVAILABLE for a too-small work area,
    timeoutErr a failed wait_for_pracc, entryMismatch the ERROR_FAIL when
    the fetch after the jump stub is not at the FASTDATA area, and
    queueFailed a failed jtag_execute_queue after the data scans. -/
inductive FdErr
  | resourceNotAvailable
  | timeoutErr
  | entryMismatch
  | queueFailed
deriving DecidableEq, Repr

/-- Observable side effects of the fastdata transfer, in order: the
    write_mem32 upload of the resident handler, each jmp_code word pushed
    through a Data DR write, and the FASTDATA DR scans (two outbound
    address words, then one scan per data word). -/
inductive FdEvent
  | uploadHandler (addr : Nat) (words : List Nat)
  | praccWrite (w : Nat)
  | fdScan (w : Nat)
  | fdScanData (i : Nat)
deriving DecidableEq, Repr

/-- The target-side responses the transfer depends on: the outcome of
    each successive wait_for_pracc, the two fetched addresses that are
    compared, and the status of the queue flush. -/
structure FdOracle where
  waits : Nat → Bool
  addrAfterJmp : Nat
  addrAtEnd : Nat
  queueOk : Bool

/-- The 20-word resident FASTDATA handler (handler_code in the source),
    with slots 8 and 9 patched according to the transfer direction. -/
def fastdata_handler_code (write_t : Int) : List Nat :=
  let base := [
    MIPS32_SW 8 (MIPS32_FASTDATA_HANDLER_SIZE - 4) 15,
    MIPS32_SW 9 (MIPS32_FASTDATA_HANDLER_SIZE - 8) 15,
    MIPS32_SW 10 (MIPS32_FASTDATA_HANDLER_SIZE - 12) 15,
    MIPS32_SW 11 (MIPS32_FASTDATA_HANDLER_SIZE - 16) 15,
    MIPS32_LUI 8 (UPPER16 MIPS32_PRACC_FASTDATA_AREA),
    MIPS32_ORI 8 8 (LOWER16 MIPS32_PRACC_FASTDATA_AREA),
    MIPS32_LW 9 0 8,
    MIPS32_LW 10 0 8,
    MIPS32_LW 11 0 0,
    MIPS32_SW 11 0 0,
    MIPS32_BNE 10 9 (NEG16 3),
    MIPS32_ADDI 9 9 4,
    MIPS32_LW 8 (MIPS32_FASTDATA_HANDLER_SIZE - 4) 15,
    MIPS32_LW 9 (MIPS32_FASTDATA_HANDLER_SIZE - 8) 15,
    MIPS32_LW 10 (MIPS32_FASTDATA_HANDLER_SIZE - 12) 15,
    MIPS32_LW 11 (MIPS32_FASTDATA_HANDLER_SIZE - 16) 15,
    MIPS32_LUI 15 (UPPER16 MIPS32_PRACC_TEXT),
    MIPS32_ORI 15 15 (LOWER16 MIPS32_PRACC_TEXT),
    MIPS32_JR 15,
    MIPS32_MFC0 15 31 0 ]
  let h8 := if write_t ≠ 0 then MIPS32_LW 11 0 8 else MIPS32_LW 11 0 9
  let h9 := if write_t ≠ 0 then MIPS32_SW 11 0 9 else MIPS32_SW 11 0 8
  (base.set 8 h8).set 9 h9

/-- The five-word jump stub (jmp_code in the source) that stashes $15 in
    DeSave, loads the work-area address into $15 (or-patched into the LUI
    and ORI slots) and jumps there. -/
def fastdata_jmp_code (srcAddr : Nat) : List Nat :=
  [ MIPS32_MTC0 15 31 0,
    MIPS32_LUI 15 0 ||| UPPER16 srcAddr,
    MIPS32_ORI 15 15 0 ||| LOWER16 srcAddr,
    MIPS32_JR 15,
    MIPS32_NOP ]

/-- Push the jmp_code words through the per-cycle PrAcc dialog: one
    wait_for_pracc (the k-th oracle outcome) and one Data DR write per
    word; a failed wait aborts with the events so far. -/
def fdJmpLoop (o : FdOracle) : List Nat → Nat → List FdEvent →
    Option FdErr × List FdEvent × Nat
  | [], k, evs => (none, evs, k)
  | w :: ws, k, evs =>
    if o.waits k then fdJmpLoop o ws (k + 1) (evs ++ [.praccWrite w])
    else (some .timeoutErr, evs, k)

/-- mips32_pracc_fastdata_xfer: check the work-area size FIRST, upload the
    patched handler only when the direction differs from the cached one,
    push the jump stub word by word, verify the next fetch is at the
    FASTDATA area, scan the start and end addresses and the count data
    words, flush, and finally verify the return fetch (a mismatch there
    is only logged).  Returns the error (none for ERROR_OK), the emitted
    events, and the new fast_access_save cache. -/
def mips32_pracc_fastdata_xfer (fast_access_save write_t : Int)
    (srcAddr srcSize addr count : Nat) (o : FdOracle) :
    Option FdErr × List FdEvent × Int :=
  if srcSize < MIPS32_FASTDATA_HANDLER_SIZE then
    (some .resourceNotAvailable, [], fast_access_save)
  else
    let upload : List FdEvent :=
      if write_t ≠ fast_access_save then
        [.uploadHandler srcAddr (fastdata_handler_code write_t)]
      else []
    let save1 : Int := if write_t ≠ fast_access_save then write_t else fast_access_save
    match fdJmpLoop o (fastdata_jmp_code srcAddr) 0 upload with
    | (some e, evs, _) => (some e, evs, save1)
    | (none, evs, k) =>
      if ¬ o.waits k then (some .timeoutErr, evs, save1)
      else if o.addrAfterJmp ≠ MIPS32_PRACC_FASTDATA_AREA then
        (some .entryMismatch, evs, save1)
      else if ¬ o.waits (k + 1) then (some .timeoutErr, evs, save1)
      else
        let evs := evs ++ [.fdScan addr, .fdScan (addr + (count - 1) * 4)]
          ++ (List.range count).map .fdScanData
        if ¬ o.queueOk then (some .queueFailed, evs, save1)
        else if ¬ o.waits (k + 2) then (some .timeoutErr, evs, save1)
        else (none, evs, save1)

/-- Claim C8.  Whenever the caller-provided work area is smaller than the
    fastdata handler, mips32_pracc_fastdata_xfer returns
    ERROR_TARGET_RESOURCE_NOT_AVAILABLE before emitting any transport
    write or scan (empty event list) and without touching the cached
    direction. -/
theorem C8_small_workarea (fas wt : Int) (srcAddr srcSize addr count : Nat)
    (o : FdOracle) (h : srcSize < MIPS32_FASTDATA_HANDLER_SIZE) :
    mips32_pracc_fastdata_xfer fas wt srcAddr srcSize addr count o =
      (some FdErr.resourceNotAvailable, [], fas) := by
  unfold mips32_pracc_fastdata_xfer
  rw [if_pos h]

/-- The always-cooperative target oracle. -/
def fdOracleOk : FdOracle :=
  { waits := fun _ => true, addrAfterJmp := MIPS32_PRACC_FASTDATA_AREA,
    addrAtEnd := MIPS32_PRACC_TEXT, queueOk := true }

/-- Witness for C8_small_workarea: a 64-byte work area (handler needs
    0x80) fails with an empty event trace and an unchanged cache. -/
theorem C8_small_workarea_witness :
    (64 : Nat) < MIPS32_FASTDATA_HANDLER_SIZE ∧
    mips32_pracc_fastdata_xfer (-1) 1 0xA0000000 64 0x80000000 4 fdOracleOk =
      (some FdErr.resourceNotAvailable, [], -1) :=
  ⟨by decide, C8_small_workarea (-1) 1 0xA0000000 64 0x80000000 4 fdOracleOk (by decide)⟩

/-- With an adequate work area and a cooperative target the transfer does
    emit events: the handler upload, five jmp_code pushes, two address
    scans and one scan per data word. -/
lemma fastdata_xfer_success_events :
    (mips32_pracc_fastdata_xfer (-1) 1 0xA0000000 0x80 0x80000000 2 fdOracleOk).2.1.length
      = 10 ∧
    (mips32_pracc_fastdata_xfer (-1) 1 0xA0000000 0x80 0x80000000 2 fdOracleOk).1
      = none := by decide

end OpenOCD
